import Mathlib

/-!
# Verification of the maze game core (`js/game.js`) and analysis server (`backend/server.js`)

Shallow embedding of the repository's core logic:

* the recursive-backtracking maze generator `MazeGame.generateMaze`,
* the session state machine (`move`, `startGame`, `completeGame`, `reset`,
  `isValidMove`, `isHesitating`) of `js/game.js`,
* the metric/archetype classifier of `POST /api/analyze/game` in
  `backend/server.js`.

Modelling conventions:

* JS numbers holding grid coordinates are modelled as `ℤ`; cell values
  (0 = open, 1 = wall, 2 = exit) as `ℕ`; timestamps (`Date.now()`) as `ℕ`
  milliseconds passed in explicitly as `now`.
* The 2-D array `grid` is modelled as a total function `ℤ × ℤ → ℕ`
  together with the dimensions; all source accesses are guard-protected
  in-bounds, so the function view is exact on the rectangle.
* `Math.random()` is modelled by a choice stream `f : ℕ → ℕ`; the k-th
  uniform draw from `[0, n)` is `f k % n`.  Every run of the JS code
  corresponds to some stream.
* The two unbounded source loops (the carving `while` and the exit-search
  `do/while`) take explicit fuel and return `none` when the fuel is
  exhausted; divergence of the source loop is `none` for every fuel.
* JS floating point arithmetic in the score formulas is modelled by exact
  rationals; `Math.round` is `jsRound`, `Math.floor` of a nonneg division
  is `ℕ` division.
* Falsiness of JS numbers (`if (!this.lastMoveTime)`) is modelled by
  `truthy`, which is false on `none` and on `some 0`.
-/

/-- JS `Math.round`: round half towards positive infinity. -/
def jsRound (q : ℚ) : ℤ := ⌊q + 1 / 2⌋

/-- JS truthiness of a nullable numeric field (`null`/`undefined` ↦ `none`). -/
def truthy : Option ℕ → Bool
  | none => false
  | some t => decide (t ≠ 0)

/-- Pointwise update of a grid function, modelling `grid[y][x] = v`. -/
def setCell (g : ℤ × ℤ → ℕ) (p : ℤ × ℤ) (v : ℕ) : ℤ × ℤ → ℕ :=
  fun q => if q = p then v else g q

/-- The rectangle of valid cell coordinates of a `width × height` grid. -/
def dom (w h : ℤ) : Finset (ℤ × ℤ) :=
  Finset.Icc 0 (w - 1) ×ˢ Finset.Icc 0 (h - 1)

/-- The non-Wall cells of the grid (source: cells with value `!== 1`). -/
def openCells (w h : ℤ) (g : ℤ × ℤ → ℕ) : Finset (ℤ × ℤ) :=
  (dom w h).filter (fun p => g p ≠ 1)

/-- Carved edges: ordered pairs of open cells where the second is the right
or down neighbour of the first.  Each undirected carved edge is counted
exactly once. -/
def edgeSet (w h : ℤ) (g : ℤ × ℤ → ℕ) : Finset ((ℤ × ℤ) × (ℤ × ℤ)) :=
  ((openCells w h g) ×ˢ (openCells w h g)).filter
    (fun e => e.2 = (e.1.1 + 1, e.1.2) ∨ e.2 = (e.1.1, e.1.2 + 1))

/-- Four-directional adjacency of cells. -/
def adjacent (p q : ℤ × ℤ) : Prop :=
  q = (p.1 + 1, p.2) ∨ q = (p.1 - 1, p.2) ∨ q = (p.1, p.2 + 1) ∨ q = (p.1, p.2 - 1)

instance : DecidablePred (fun e : (ℤ × ℤ) × (ℤ × ℤ) => adjacent e.1 e.2) := by
  intro e; unfold adjacent; infer_instance

/-- One step of movement through carved cells: step to an adjacent open cell. -/
def stepRel (w h : ℤ) (g : ℤ × ℤ → ℕ) (p q : ℤ × ℤ) : Prop :=
  q ∈ openCells w h g ∧ adjacent p q

/-- Reachability through carved cells (4-directional, inside the open region). -/
def reach (w h : ℤ) (g : ℤ × ℤ → ℕ) (p q : ℤ × ℤ) : Prop :=
  Relation.ReflTransGen (stepRel w h g) p q

/-- The four carving directions of `generateMaze`, in source order
(up, right, down, left), as `(dx, dy)` offsets of two cells. -/
def directions : List (ℤ × ℤ) := [(0, -2), (2, 0), (0, 2), (-2, 0)]

/-- The unvisited two-away neighbours of `(x, y)` considered by the carving
loop: strictly inside the border and still walls (source lines 74–83). -/
def neighborsList (g : ℤ × ℤ → ℕ) (w h x y : ℤ) : List (ℤ × ℤ) :=
  directions.filter (fun d =>
    decide (0 < x + d.1 ∧ x + d.1 < w - 1 ∧ 0 < y + d.2 ∧ y + d.2 < h - 1 ∧
      g (x + d.1, y + d.2) = 1))

/-- State of the carving loop: the grid, the cell stack and the index of the
next `Math.random()` draw. -/
structure CarveState where
  grid : ℤ × ℤ → ℕ
  stack : List (ℤ × ℤ)
  k : ℕ

/-- The recursive-backtracking carving loop (source lines 62–96), with fuel
for the unbounded `while`.  `none` means the fuel ran out. -/
def carveLoop (f : ℕ → ℕ) (w h : ℤ) : ℕ → CarveState → Option CarveState
  | 0, _ => none
  | fuel + 1, st =>
    match st.stack with
    | [] => some st
    | p :: rest =>
      match neighborsList st.grid w h p.1 p.2 with
      | [] => carveLoop f w h fuel { st with stack := rest }
      | n :: ns =>
        let l := n :: ns
        let d := l.get ⟨f st.k % l.length, Nat.mod_lt _ (Nat.succ_pos _)⟩
        let g1 := setCell st.grid (p.1 + d.1 / 2, p.2 + d.2 / 2) 0
        let g2 := setCell g1 (p.1 + d.1, p.2 + d.2) 0
        carveLoop f w h fuel ⟨g2, (p.1 + d.1, p.2 + d.2) :: st.stack, st.k + 1⟩

/-- The exit-search `do/while` (source lines 100–103): draw a row in
`[1, height-2]` and retry while the cell in column `width-2` is a wall.
Returns the exit row and the next draw index; `none` when fuel ran out. -/
def exitSearch (f : ℕ → ℕ) (w h : ℤ) (g : ℤ × ℤ → ℕ) : ℕ → ℕ → Option (ℤ × ℕ)
  | 0, _ => none
  | fuel + 1, k =>
    let m := (h - 2).toNat
    let y : ℤ := ((if m = 0 then 0 else f k % m : ℕ) : ℤ) + 1
    if g (w - 2, y) = 1 then exitSearch f w h g fuel (k + 1) else some (y, k + 1)

/-- The data `generateMaze` leaves behind: the grid it returns and the
`this.exit` / `this.player` / `this.path` fields it assigns. -/
structure MazeResult where
  grid : ℤ × ℤ → ℕ
  exit : ℤ × ℤ
  player : ℤ × ℤ
  path : List (ℤ × ℤ)

instance : Inhabited MazeResult := ⟨⟨fun _ => 1, (0, 0), (0, 0), []⟩⟩

/-- Embeds `MazeGame.generateMaze(width, height)` (source lines 50–114).  The grid
starts all walls, the start cell `(1,1)` is opened and carved from; then the
exit is searched in column `width-2` and marked `2`, and the start is
(re)set to `0`. -/
def generateMaze (f : ℕ → ℕ) (w h : ℤ) (cf ef : ℕ) : Option MazeResult :=
  let g0 : ℤ × ℤ → ℕ := fun _ => 1
  (carveLoop f w h cf ⟨setCell g0 (1, 1) 0, [(1, 1)], 0⟩).bind fun st =>
    (exitSearch f w h st.grid ef st.k).bind fun ey =>
      some ⟨setCell (setCell st.grid (w - 2, ey.1) 2) (1, 1) 0,
            (w - 2, ey.1), (1, 1), [(1, 1)]⟩

/-- Wraps `generateMaze` behind JS array construction: `Array(height)` /
`Array(width)` raise `RangeError: Invalid array length` on a negative
length before any state is touched. -/
def generateMazeChecked (f : ℕ → ℕ) (w h : ℤ) (cf ef : ℕ) :
    Except String MazeResult :=
  if h < 0 then Except.error ("Invalid array length")
  else if w < 0 then Except.error ("Invalid array length")
  else
    match generateMaze f w h cf ef with
    | none => Except.error ("fuel exhausted")
    | some r => Except.ok r

/-! ## Session state machine (`js/game.js`, class `MazeGame`) -/

/-- Telemetry observations emitted via `trackEvent` (source line 562). -/
inductive GEvent where
  | gameStart : GEvent
  | moveEv : String → ℤ × ℤ → ℤ × ℤ → GEvent
  | invalidMove : String → ℤ × ℤ → GEvent
  | hesitation : ℕ → GEvent
  | gameComplete : ℕ → ℕ → ℕ → ℕ → ℕ → GEvent
  | gameReset : GEvent
deriving DecidableEq

/-- The `this.metrics` record (source lines 19–26). -/
structure Metrics where
  moves : ℕ
  timeTaken : ℕ
  decisions : ℕ
  hesitations : ℕ
  efficiency : ℤ
  confidence : ℤ
deriving DecidableEq

/-- The session state: the mutable fields of a `MazeGame` instance
(canvas/rendering fields are presentation and out of scope). -/
structure GameState where
  w : ℤ
  h : ℤ
  maze : ℤ × ℤ → ℕ
  player : ℤ × ℤ
  moves : ℕ
  decisions : ℕ
  hesitations : ℕ
  startTime : Option ℕ
  gameActive : Bool
  lastMoveTime : Option ℕ
  path : List (ℤ × ℤ)
  exit : ℤ × ℤ
  metrics : Metrics

/-- The state after the constructor ran with a successfully generated maze
(source lines 4–35: counters zero, inactive, exit/player/path as left by
`generateMaze`). -/
def mkState (w h : ℤ) (res : MazeResult) : GameState :=
  ⟨w, h, res.grid, res.player, 0, 0, 0, none, false, none, res.path, res.exit,
   ⟨0, 0, 0, 0, 0, 100⟩⟩

/-- Embeds `MazeGame.startGame` (source lines 387–400). -/
def startGame (now : ℕ) (st : GameState) : GameState × List GEvent :=
  if st.gameActive then (st, [])
  else ({st with startTime := some now, gameActive := true, lastMoveTime := some now},
        [GEvent.gameStart])

/-- Embeds `MazeGame.isValidMove` (source lines 379–385): in bounds and not a wall. -/
def isValidMove (st : GameState) (x y : ℤ) : Bool :=
  decide (0 ≤ x ∧ x < st.w ∧ 0 ≤ y ∧ y < st.h ∧ st.maze (x, y) ≠ 1)

/-- Embeds `MazeGame.completeGame` (source lines 402–439): deactivate the session
and compute the final metrics.  UI/analysis callbacks are out of scope. -/
def completeGame (now : ℕ) (st : GameState) : GameState × List GEvent :=
  if st.gameActive = false then (st, [])
  else
    let timeTaken := (now - st.startTime.getD 0) / 1000
    ({st with
        gameActive := false,
        metrics :=
         { moves := st.moves,
           timeTaken := timeTaken,
           decisions := st.decisions,
           hesitations := st.metrics.hesitations,
           efficiency := min 100 (jsRound (((100 : ℚ) - (st.moves : ℚ)) * 100 / 150)),
           confidence := max 0 (100 - (st.hesitations : ℤ) * 5) }},
     [GEvent.gameComplete st.moves timeTaken st.decisions st.hesitations st.path.length])

/-- Horizontal displacement of a direction string (source line 325). -/
def dirDx (dir : String) : ℤ :=
  if dir = "left" then -1 else if dir = "right" then 1 else 0

/-- Vertical displacement of a direction string (source line 326). -/
def dirDy (dir : String) : ℤ :=
  if dir = "up" then -1 else if dir = "down" then 1 else 0

/-- Embeds `MazeGame.move` (source lines 320–377).  Auto-starts an inactive
session, validates the target, counts a retroactive hesitation, applies the
position/counter/path updates and completes the game when the exit is
reached.  Returns the new state and the telemetry emitted, in order. -/
def move (dir : String) (now : ℕ) (st0 : GameState) : GameState × List GEvent :=
  let stA := (startGame now st0).1
  let ev0 := (startGame now st0).2
  let dx := dirDx dir
  let dy := dirDy dir
  let newX := stA.player.1 + dx
  let newY := stA.player.2 + dy
  if isValidMove stA newX newY then
    let hes : Bool := truthy stA.lastMoveTime && decide (1000 < now - stA.lastMoveTime.getD 0)
    let stB := if hes then
        {stA with
          hesitations := stA.hesitations + 1,
          metrics := {stA.metrics with hesitations := stA.metrics.hesitations + 1}}
      else stA
    let ev1 : List GEvent :=
      if hes then [GEvent.hesitation (now - stA.lastMoveTime.getD 0)] else []
    let stC := {stB with
      player := (newX, newY),
      moves := stB.moves + 1,
      decisions := stB.decisions + 1,
      lastMoveTime := some now}
    let stD := if stC.path.getLast? = some (newX, newY) then stC
               else {stC with path := stC.path ++ [(newX, newY)]}
    let ev2 : List GEvent := [GEvent.moveEv dir (newX - dx, newY - dy) (newX, newY)]
    let r := if newX = stD.exit.1 ∧ newY = stD.exit.2 then completeGame now stD else (stD, [])
    (r.1, ev0 ++ ev1 ++ ev2 ++ r.2)
  else
    (stA, ev0 ++ [GEvent.invalidMove dir (newX, newY)])

/-- Embeds `MazeGame.isHesitating` (source lines 285–289): read-only query, no
assignment in its body. -/
def isHesitating (st : GameState) (now : ℕ) : Bool :=
  if truthy st.lastMoveTime = false then false
  else decide (2000 < now - st.lastMoveTime.getD 0) && st.gameActive

/-- Embeds `MazeGame.reset` (source lines 572–612) given the freshly generated
maze `res`: install the new maze and return every counter and flag to its
initial value. -/
def resetGame (st : GameState) (w h : ℤ) (res : MazeResult) :
    GameState × List GEvent :=
  ({st with
      w := w, h := h, maze := res.grid, exit := res.exit,
      player := (1, 1), path := [(1, 1)],
      moves := 0, decisions := 0, hesitations := 0,
      startTime := none, gameActive := false, lastMoveTime := none,
      metrics := ⟨0, 0, 0, 0, 0, 100⟩},
   [GEvent.gameReset])

/-! ## The `POST /api/analyze/game` classifier (`backend/server.js`) -/

/-- The fields of the cognitive profile computed by the endpoint that the
claims mention (source lines 145–205). -/
structure AnalyzeResult where
  moveEfficiency : ℤ
  timeEfficiency : ℤ
  decisionConfidence : ℤ
  overallScore : ℤ
  archetype : String
  archetypeName : String
  biases : List String
deriving DecidableEq

/-- Embeds `getArchetypeName` (source lines 295–304). -/
def getArchetypeName (t : String) : String :=
  if t = "strategist" then "The Strategist"
  else if t = "explorer" then "The Explorer"
  else if t = "intuitive" then "The Intuitive"
  else if t = "analytical" then "The Analytical"
  else if t = "balanced" then "The Balanced Thinker"
  else "The Thinker"

/-- The pure computation of `POST /api/analyze/game` (source lines
145–205): scores, first-match archetype, threshold-triggered biases. -/
def analyzeGame (moves timeTaken decisions hesitations : ℤ) : AnalyzeResult :=
  let moveEfficiency := min 100 (jsRound (((100 : ℚ) - (moves : ℚ)) * 100 / 150))
  let timeEfficiency := min 100 (jsRound (((300 : ℚ) - (timeTaken : ℚ)) * 100 / 300))
  let decisionConfidence := min 100 (jsRound ((100 : ℚ) - (hesitations : ℚ)))
  let archetype :=
    if 80 < moveEfficiency ∧ 80 < timeEfficiency then "strategist"
    else if moveEfficiency < 60 ∧ 30 < decisions then "explorer"
    else if 90 < timeEfficiency then "intuitive"
    else if decisionConfidence < 70 then "analytical"
    else "balanced"
  let biases :=
    (if 50 < moves then ["analysis_paralysis"] else []) ++
    (if 10 < hesitations then ["decision_anxiety"] else []) ++
    (if timeTaken < 30 ∧ 40 < moves then ["impulsivity"] else [])
  let overallScore :=
    jsRound (((moveEfficiency + timeEfficiency + decisionConfidence : ℤ) : ℚ) / 3)
  ⟨moveEfficiency, timeEfficiency, decisionConfidence, overallScore,
   archetype, getArchetypeName archetype, biases⟩

/-! ## Spec-side formulas (for refinement comparison only)

These two definitions follow the words of the spec (§4.3), not the source;
they exist to be compared against the formulas the code computes. -/

/-- Modelled from the spec: `efficiency = clamp(0, 100, round((100 − moves)
× 100 / 150))`. -/
def specEfficiency (m : ℤ) : ℤ :=
  max 0 (min 100 (jsRound (((100 : ℚ) - (m : ℚ)) * 100 / 150)))

/-- Modelled from the spec: `confidence = clamp(0, 100, 100 − hesitations ×
5)`. -/
def specConfidence (hs : ℤ) : ℤ := max 0 (min 100 (100 - hs * 5))

/-! ## Concrete demonstration data -/

/-- A concrete 5×5 maze generated with the all-zeros choice stream. -/
def demoMaze : Option MazeResult := generateMaze (fun _ => 0) 5 5 50 5

/-- The generated 5×5 maze: open cells `(1,1) (2,1) (3,1) (3,2) (1,3) (2,3)
(3,3)`, exit at `(3,1)`. -/
def demoRes : MazeResult := demoMaze.getD default

/-- The fresh session on the demo maze. -/
def demoInit : GameState := mkState 5 5 demoRes

/-- The session after one accepted move right, onto `(2,1)`, at t=1000ms. -/
def demoActive : GameState := (move ("right") 1000 demoInit).1

/-- The session after a second move right onto the exit `(3,1)` at
t=2500ms: the game completes. -/
def demoComplete : GameState := (move ("right") 2500 demoActive).1

/-- The choice stream whose carve phase (first 8 draws) produces a 7×7 maze
in which cell `(5,2)` stays a wall, and whose exit phase afterwards always
draws row `1 % 5 + 1 = 2`. -/
def badStream7 (k : ℕ) : ℕ := [1, 1, 0, 1, 0, 1, 0, 0].getD k 1

/-- The carving phase of `generateMaze(7,7)` under `badStream7`. -/
def badCarve7 : Option CarveState :=
  carveLoop badStream7 7 7 200 ⟨setCell (fun _ => 1) (1, 1) 0, [(1, 1)], 0⟩

/-- The carve state reached by `badCarve7` (it succeeds within fuel 200). -/
def badState7 : CarveState := badCarve7.getD ⟨fun _ => 1, [], 0⟩

/-! ## Reachable session states and the carving invariant -/

/-- Session states reachable from construction by any sequence of `move`
intents, explicit `startGame` calls and `reset` (the constructor and
`reset` install a freshly generated maze; the dimension arguments are kept
general — the source always passes 15×15). -/
inductive ReachableSession : GameState → Prop where
  | init (w h : ℤ) (f : ℕ → ℕ) (cf ef : ℕ) (res : MazeResult) :
      generateMaze f w h cf ef = some res → ReachableSession (mkState w h res)
  | step (st : GameState) (dir : String) (now : ℕ) :
      ReachableSession st → ReachableSession (move dir now st).1
  | start (st : GameState) (now : ℕ) :
      ReachableSession st → ReachableSession (startGame now st).1
  | reset (st : GameState) (w h : ℤ) (f : ℕ → ℕ) (cf ef : ℕ) (res : MazeResult) :
      ReachableSession st → generateMaze f w h cf ef = some res →
      ReachableSession (resetGame st w h res).1

/-- Invariant of the carving loop.  Open cells are interior; node cells
have both coordinates odd and carved wall cells exactly one even
coordinate; an open wall-between cell always has both of its flanking node
cells open; the stack holds open node cells; the open region is one tree
rooted at the start. -/
structure CarveInv (w h : ℤ) (g : ℤ × ℤ → ℕ) (stack : List (ℤ × ℤ)) : Prop where
  start_open : g (1, 1) ≠ 1
  open_interior : ∀ p ∈ openCells w h g,
    1 ≤ p.1 ∧ p.1 ≤ w - 2 ∧ 1 ≤ p.2 ∧ p.2 ≤ h - 2
  no_even_even : ∀ p ∈ openCells w h g, p.1 % 2 = 1 ∨ p.2 % 2 = 1
  mid_horiz : ∀ p ∈ openCells w h g, p.1 % 2 = 0 →
    g (p.1 - 1, p.2) ≠ 1 ∧ g (p.1 + 1, p.2) ≠ 1
  mid_vert : ∀ p ∈ openCells w h g, p.2 % 2 = 0 →
    g (p.1, p.2 - 1) ≠ 1 ∧ g (p.1, p.2 + 1) ≠ 1
  stack_open : ∀ p ∈ stack, p ∈ openCells w h g ∧ p.1 % 2 = 1 ∧ p.2 % 2 = 1
  conn : ∀ p ∈ openCells w h g, reach w h g (1, 1) p
  tree : (edgeSet w h g).card + 1 = (openCells w h g).card

/-- An Active session on the demo maze with 150 accepted moves and 25
hesitations recorded (any session state is a legal input to
`completeGame`/`analyzeGame`; the claims quantify over the counters). -/
def demo150 : GameState :=
  ⟨5, 5, demoRes.grid, (2, 1), 150, 150, 25, some 1000, true, some 1000,
   [(1, 1), (2, 1)], (3, 1), ⟨0, 0, 0, 0, 0, 100⟩⟩

/-! ## Helper lemmas -/

theorem jsRound_intCast (n : ℤ) : jsRound ((n : ℚ)) = n := by
  unfold jsRound
  rw [add_comm, Int.floor_add_int]
  norm_num

theorem jsRound_nonneg {q : ℚ} (hq : 0 ≤ q) : 0 ≤ jsRound q := by
  unfold jsRound
  have : (0 : ℚ) ≤ q + 1 / 2 := by linarith
  exact_mod_cast Int.floor_nonneg.mpr this

theorem effFormula_nonneg {m : ℤ} (hm : m ≤ 100) :
    0 ≤ jsRound (((100 : ℚ) - (m : ℚ)) * 100 / 150) := by
  apply jsRound_nonneg
  have h1 : (0 : ℚ) ≤ (100 : ℚ) - (m : ℚ) := by
    have : (m : ℚ) ≤ 100 := by exact_mod_cast hm
    linarith
  positivity

/-! ## C4: the efficiency formula -/

/-- C4, counterexample.  The claim states that for every number of moves
the efficiency is `round((100 − moves)·100/150)` clamped to `[0, 100]` and
that `moves = 150` yields `0`.  On the code (both `completeGame` in
`js/game.js` and the analysis endpoint in `backend/server.js`) there is no
lower clamp: `moves = 150` yields `-33`, while the spec formula yields `0`. -/
theorem c4_counterexample :
    (completeGame 9999 demo150).1.metrics.efficiency = -33 ∧
    (analyzeGame 150 0 0 0).moveEfficiency = -33 ∧
    specEfficiency 150 = 0 := by
  refine ⟨?_, ?_, ?_⟩
  · show (completeGame 9999 demo150).1.metrics.efficiency = -33
    simp only [completeGame, demo150]
    norm_num [jsRound]
  · simp only [analyzeGame]
    norm_num [jsRound]
  · simp only [specEfficiency]
    norm_num [jsRound]

/-- C4, amended claim.  The efficiency computed by the code is
`min(100, round((100 − moves)·100/150))` — clamped above at 100 only, so
it is negative for moves > 100; for `moves ≤ 100` it coincides with the
spec's clamp to `[0, 100]`. -/
theorem c4_efficiency_amended :
    (∀ (st : GameState) (now : ℕ), st.gameActive = true →
      (completeGame now st).1.metrics.efficiency
          = min 100 (jsRound (((100 : ℚ) - (st.moves : ℚ)) * 100 / 150))
        ∧ ((st.moves : ℤ) ≤ 100 →
            (completeGame now st).1.metrics.efficiency = specEfficiency (st.moves : ℤ)))
    ∧ (∀ moves timeTaken decisions hesitations : ℤ,
        (analyzeGame moves timeTaken decisions hesitations).moveEfficiency
            = min 100 (jsRound (((100 : ℚ) - (moves : ℚ)) * 100 / 150))
          ∧ (moves ≤ 100 →
              (analyzeGame moves timeTaken decisions hesitations).moveEfficiency
                = specEfficiency moves)) := by
  constructor
  · intro st now hact
    have h1 : (completeGame now st).1.metrics.efficiency
        = min 100 (jsRound (((100 : ℚ) - (st.moves : ℚ)) * 100 / 150)) := by
      simp [completeGame, hact]
    refine ⟨h1, fun hm => ?_⟩
    rw [h1]
    unfold specEfficiency
    have h0 : 0 ≤ jsRound (((100 : ℚ) - ((st.moves : ℤ) : ℚ)) * 100 / 150) :=
      effFormula_nonneg hm
    push_cast at h0 ⊢
    omega
  · intro moves timeTaken decisions hesitations
    have h1 : (analyzeGame moves timeTaken decisions hesitations).moveEfficiency
        = min 100 (jsRound (((100 : ℚ) - (moves : ℚ)) * 100 / 150)) := rfl
    refine ⟨h1, fun hm => ?_⟩
    rw [h1]
    unfold specEfficiency
    have h0 : 0 ≤ jsRound (((100 : ℚ) - (moves : ℚ)) * 100 / 150) :=
      effFormula_nonneg hm
    omega

/-- C4 witness: on a concrete completed session with one move the code and
the spec formula agree. -/
theorem c4_efficiency_amended_witness :
    (completeGame 5000 demoActive).1.metrics.efficiency
      = specEfficiency ((demoActive.moves : ℤ)) :=
  (c4_efficiency_amended.1 demoActive 5000 (by decide)).2 (by decide)

/-! ## C5: the confidence formula -/

/-- C5, counterexample.  The claim states the classifier's confidence is
`clamp(0, 100, 100 − hesitations·5)`, so `hesitations = 25` gives `0`.
The classifier (`backend/server.js` line 148) computes
`min(100, round(100 − hesitations))`: 25 hesitations give `75`, not `0`. -/
theorem c5_counterexample :
    (analyzeGame 0 0 0 25).decisionConfidence = 75 ∧ specConfidence 25 = 0 := by
  constructor
  · simp only [analyzeGame]
    norm_num [jsRound]
  · simp only [specConfidence]
    norm_num

/-- C5, amended claim.  The server classifier's confidence is
`min(100, 100 − hesitations)` — one point per hesitation, no lower clamp —
while the session metric computed by `completeGame` in `js/game.js` is
`max(0, 100 − hesitations·5)`, which does match the spec's clamp formula
(so 25 hesitations give 0 there). -/
theorem c5_confidence_amended :
    (∀ moves timeTaken decisions hesitations : ℤ,
      (analyzeGame moves timeTaken decisions hesitations).decisionConfidence
        = min 100 (100 - hesitations))
    ∧ (∀ (st : GameState) (now : ℕ), st.gameActive = true →
        (completeGame now st).1.metrics.confidence = specConfidence ((st.hesitations : ℤ))) := by
  constructor
  · intro moves timeTaken decisions hesitations
    show min 100 (jsRound ((100 : ℚ) - (hesitations : ℚ))) = min 100 (100 - hesitations)
    have : ((100 : ℚ) - (hesitations : ℚ)) = (((100 - hesitations : ℤ) : ℚ)) := by
      push_cast; ring
    rw [this, jsRound_intCast]
  · intro st now hact
    have h1 : (completeGame now st).1.metrics.confidence
        = max 0 (100 - (st.hesitations : ℤ) * 5) := by
      simp [completeGame, hact]
    rw [h1]
    unfold specConfidence
    have h0 : (0 : ℤ) ≤ (st.hesitations : ℤ) := Int.ofNat_nonneg _
    omega

/-- C5 witness: on a concrete Active session with 25 hesitations,
`completeGame` yields confidence `specConfidence 25 = 0`. -/
theorem c5_confidence_amended_witness :
    (completeGame 5000 demo150).1.metrics.confidence = specConfidence ((demo150.hesitations : ℤ)) :=
  c5_confidence_amended.2 demo150 5000 (by decide)

/-! ## C6: classifier determinism on `(20, 45, 1, 20)` -/

/-- C6, counterexample.  The claim asserts confidence 95 and overall score
78 on input `(moves 20, time 45, hesitations 1, decisions 20)`; the server
computes confidence `min(100, round(100 − 1)) = 99` and hence overall
`round((53 + 85 + 99)/3) = 79`. -/
theorem c6_counterexample :
    (analyzeGame 20 45 20 1).decisionConfidence = 99 ∧
    (analyzeGame 20 45 20 1).overallScore = 79 ∧
    (analyzeGame 20 45 20 1).decisionConfidence ≠ 95 ∧
    (analyzeGame 20 45 20 1).overallScore ≠ 78 := by
  have h : (analyzeGame 20 45 20 1).decisionConfidence = 99 ∧
      (analyzeGame 20 45 20 1).overallScore = 79 := by
    constructor
    · simp only [analyzeGame]
      norm_num [jsRound]
    · simp only [analyzeGame]
      norm_num [jsRound]
  exact ⟨h.1, h.2, by rw [h.1]; decide, by rw [h.2]; decide⟩

/-- C6, amended claim.  The classifier is a pure function, hence
deterministic; on `(moves 20, time 45, hesitations 1, decisions 20)` it
returns efficiency 53, time efficiency 85, confidence 99 (one point per
hesitation), overall score 79, archetype `balanced` (`The Balanced
Thinker`) and no triggered biases. -/
theorem c6_classifier_amended :
    (analyzeGame 20 45 20 1).moveEfficiency = 53 ∧
    (analyzeGame 20 45 20 1).timeEfficiency = 85 ∧
    (analyzeGame 20 45 20 1).decisionConfidence = 99 ∧
    (analyzeGame 20 45 20 1).overallScore = 79 ∧
    (analyzeGame 20 45 20 1).archetype = "balanced" ∧
    (analyzeGame 20 45 20 1).archetypeName = "The Balanced Thinker" ∧
    (analyzeGame 20 45 20 1).biases = [] := by
  refine ⟨?_, ?_, ?_, ?_, ?_, ?_, ?_⟩ <;>
    · simp only [analyzeGame, getArchetypeName]
      norm_num [jsRound]
      try decide

/-! ## C9: the hesitation query -/

/-- C9.  `isHesitating` returns `true` exactly when the session is Active
and more than 2000 ms have elapsed since the last recorded move; it is a
pure function of the state (the source body contains no assignment), so
evaluating it twice in the same state returns the same value and leaves
the state untouched — in particular it never changes `hesitations`.  The
hypothesis excludes the timestamp `0`, which JS would treat as falsy;
`Date.now()` is never 0. -/
theorem c9_isHesitating_iff (st : GameState) (now : ℕ)
    (hlm : st.lastMoveTime ≠ some 0) :
    isHesitating st now = true ↔
      st.gameActive = true ∧ ∃ t, st.lastMoveTime = some t ∧ 2000 < now - t := by
  cases hl : st.lastMoveTime with
  | none =>
    simp [isHesitating, truthy, hl]
  | some t =>
    have ht : t ≠ 0 := fun h => hlm (by rw [hl, h])
    constructor
    · intro hh
      simp only [isHesitating, hl] at hh
      rw [if_neg (by simp [truthy, ht])] at hh
      simp only [Option.getD_some, Bool.and_eq_true, decide_eq_true_eq] at hh
      exact ⟨hh.2, t, rfl, hh.1⟩
    · rintro ⟨hact, t', ht', hgt⟩
      injection ht' with he
      subst he
      simp only [isHesitating, hl]
      rw [if_neg (by simp [truthy, ht])]
      simp only [Option.getD_some, Bool.and_eq_true, decide_eq_true_eq]
      exact ⟨hgt, hact⟩

/-- C9 witness: a concrete Active session queried 4000 ms after its last
move. -/
theorem c9_isHesitating_iff_witness :
    isHesitating demoActive 5000 = true ↔
      demoActive.gameActive = true ∧
        ∃ t, demoActive.lastMoveTime = some t ∧ 2000 < 5000 - t :=
  c9_isHesitating_iff demoActive 5000 (by decide)

/-! ## C3: moves after completion -/

/-- C3.  After the session completes (`demoComplete`: the player reached
the exit, `gameActive` is false), a further move intent is *not* a no-op:
`move` auto-restarts the session (`gameActive` back to `true`, a
`game_start` observation), accepts the move, changes the position and
increments the counter — contradicting the claimed no-op-until-`reset`
behaviour. -/
theorem c3_move_after_complete_restarts :
    demoComplete.gameActive = false ∧
    demoComplete.player = demoComplete.exit ∧
    (move ("down") 3000 demoComplete).1.gameActive = true ∧
    (move ("down") 3000 demoComplete).1.player = (3, 2) ∧
    (move ("down") 3000 demoComplete).1.player ≠ demoComplete.player ∧
    (move ("down") 3000 demoComplete).1.moves = demoComplete.moves + 1 ∧
    (move ("down") 3000 demoComplete).2
      = [GEvent.gameStart, GEvent.moveEv ("down") (3, 1) (3, 2)] := by
  refine ⟨by decide, by decide, by decide, by decide, by decide, by decide, by decide⟩

/-! ## C8: malformed inputs -/

/-- C8.  A direction string outside `{up, down, left, right}` is not
rejected: both displacements default to 0, the current (open) cell is a
"valid" target, so the move is silently *accepted* — `moves` and
`decisions` increment and a `move` observation is emitted, with no error
— contradicting the claimed fail-fast behaviour.  (A negative grid size,
by contrast, does throw `RangeError: Invalid array length` in JS array
construction, before any state is touched.) -/
theorem c8_malformed_direction_accepted :
    (move ("diagonal") 1100 demoActive).1.moves = demoActive.moves + 1 ∧
    (move ("diagonal") 1100 demoActive).1.decisions = demoActive.decisions + 1 ∧
    (move ("diagonal") 1100 demoActive).1.player = demoActive.player ∧
    (move ("diagonal") 1100 demoActive).1.path = demoActive.path ∧
    (move ("diagonal") 1100 demoActive).2
      = [GEvent.moveEv ("diagonal") (2, 1) (2, 1)] ∧
    generateMazeChecked (fun _ => 0) (-3) (-3) 10 10
      = Except.error ("Invalid array length") := by
  refine ⟨by decide, by decide, by decide, by decide, by decide, rfl⟩

/-! ## C7: rejected moves -/

/-- C7, counterexample.  On an Idle session, a move intent into a wall
does not emit *only* an invalid-move observation: `move` first auto-starts
the session, so a `game_start` observation is emitted as well and
`gameActive` flips to `true`. -/
theorem c7_counterexample :
    demoInit.gameActive = false ∧
    (move ("up") 1000 demoInit).2
      = [GEvent.gameStart, GEvent.invalidMove ("up") (1, 0)] ∧
    (move ("up") 1000 demoInit).1.gameActive = true := by
  refine ⟨by decide, by decide, by decide⟩

/-- C7, amended claim.  A move whose target cell is a wall or out of
bounds is rejected without an exception (the embedding is a total
function): position, `moves`, `decisions`, `hesitations` and the Path are
unchanged in every session state.  If the session is Active nothing at all
changes and only an `invalid_move` observation is emitted; if it is Idle,
the attempt first activates the session (setting the two timestamps and
emitting `game_start` before the `invalid_move` observation). -/
theorem c7_invalid_move_amended (st : GameState) (dir : String) (now : ℕ)
    (hv : isValidMove st (st.player.1 + dirDx dir) (st.player.2 + dirDy dir) = false) :
    (move dir now st).1.player = st.player ∧
    (move dir now st).1.moves = st.moves ∧
    (move dir now st).1.decisions = st.decisions ∧
    (move dir now st).1.hesitations = st.hesitations ∧
    (move dir now st).1.path = st.path ∧
    (st.gameActive = true →
      (move dir now st).1 = st ∧
      (move dir now st).2
        = [GEvent.invalidMove dir (st.player.1 + dirDx dir, st.player.2 + dirDy dir)]) ∧
    (st.gameActive = false →
      (move dir now st).1
        = {st with startTime := some now, gameActive := true, lastMoveTime := some now} ∧
      (move dir now st).2
        = [GEvent.gameStart,
           GEvent.invalidMove dir (st.player.1 + dirDx dir, st.player.2 + dirDy dir)]) := by
  cases hact : st.gameActive with
  | true =>
    simp [move, startGame, hact, hv]
  | false =>
    have hv2 : isValidMove
        {st with startTime := some now, gameActive := true, lastMoveTime := some now}
        (st.player.1 + dirDx dir) (st.player.2 + dirDy dir) = false := by
      simpa [isValidMove] using hv
    simp [move, startGame, hact, hv2]

/-- C7 witness: an Active session rejecting a move up into the wall
`(2,0)`: completely unchanged state and a single `invalid_move`
observation. -/
theorem c7_invalid_move_amended_witness :
    (move ("up") 2222 demoActive).1 = demoActive ∧
    (move ("up") 2222 demoActive).2
      = [GEvent.invalidMove ("up")
          (demoActive.player.1 + dirDx ("up"), demoActive.player.2 + dirDy ("up"))] :=
  (c7_invalid_move_amended demoActive ("up") 2222 (by decide)).2.2.2.2.2.1 (by decide)

/-! ## C2: termination of generation -/

theorem exitSearch_badStream7_none :
    ∀ ef k : ℕ, 8 ≤ k → exitSearch badStream7 7 7 badState7.grid ef k = none := by
  intro ef
  induction ef with
  | zero => intro k _; rfl
  | succ n ih =>
    intro k hk
    have hs : badStream7 k = 1 := by
      unfold badStream7
      apply List.getD_eq_default
      simp only [List.length_cons, List.length_nil]
      omega
    have hm : ((7 : ℤ) - 2).toNat = 5 := by decide
    simp only [exitSearch, hm, hs]
    norm_num
    rw [if_pos (by decide : badState7.grid (5, 2) = 1)]
    exact ih (k + 1) (by omega)

/-- C2.  The claim asserts generation terminates for *every* sequence of
random row choices, the exit-search retry loop being capped or restricted
to reachable rows.  The code has no cap: under `badStream7`, the carving
loop does finish (first conjunct) and produces a 7×7 maze whose cell
`(5,2)` — in the exit column `width-2 = 5` — is still a wall (second
conjunct), and the subsequent `do/while` then redraws row 2 forever: the
whole generation returns `none` for every fuel bound (third conjunct). -/
theorem c2_exitSearch_diverges :
    badCarve7.isSome = true ∧
    badState7.grid (5, 2) = 1 ∧
    ∀ ef : ℕ, generateMaze badStream7 7 7 200 ef = none := by
  refine ⟨by decide, by decide, fun ef => ?_⟩
  have hc : carveLoop badStream7 7 7 200
      ⟨setCell (fun _ => 1) (1, 1) 0, [(1, 1)], 0⟩ = some badState7 := rfl
  have hk : badState7.k = 8 := by decide
  simp only [generateMaze, hc, Option.some_bind]
  rw [hk, exitSearch_badStream7_none ef 8 (by omega)]
  rfl

/-! ## C10: the path/counter invariant -/

theorem generateMaze_player_path {f : ℕ → ℕ} {w h : ℤ} {cf ef : ℕ}
    {res : MazeResult} (hres : generateMaze f w h cf ef = some res) :
    res.player = (1, 1) ∧ res.path = [(1, 1)] := by
  simp only [generateMaze] at hres
  cases hc : carveLoop f w h cf ⟨setCell (fun _ => 1) (1, 1) 0, [(1, 1)], 0⟩ with
  | none => rw [hc] at hres; simp at hres
  | some st =>
    rw [hc, Option.some_bind] at hres
    cases he : exitSearch f w h st.grid ef st.k with
    | none => rw [he] at hres; simp at hres
    | some ey =>
      rw [he, Option.some_bind] at hres
      injection hres with hres
      subst hres
      exact ⟨rfl, rfl⟩

theorem move_inv_preserved (dir : String) (now : ℕ) (st : GameState)
    (h1 : st.path ≠ []) (h2 : st.path.getLast? = some st.player)
    (h3 : st.moves = st.decisions) :
    (move dir now st).1.path ≠ [] ∧
    (move dir now st).1.path.getLast? = some (move dir now st).1.player ∧
    (move dir now st).1.moves = (move dir now st).1.decisions := by
  simp only [move, startGame, completeGame]
  split_ifs <;> simp_all [List.getLast?_concat]

/-- C10.  In every reachable session state — after construction, any
sequence of move intents, explicit starts and resets — the Path is
non-empty, its last entry is the current player position, and the `moves`
counter equals the `decisions` counter. -/
theorem c10_path_invariant (st : GameState) (hr : ReachableSession st) :
    st.path ≠ [] ∧ st.path.getLast? = some st.player ∧
    st.moves = st.decisions := by
  induction hr with
  | init w h f cf ef res hgen =>
    obtain ⟨hp, hpa⟩ := generateMaze_player_path hgen
    simp [mkState, hp, hpa]
  | step st dir now _ ih => exact move_inv_preserved dir now st ih.1 ih.2.1 ih.2.2
  | start st now _ ih =>
    have hp : (startGame now st).1.path = st.path := by unfold startGame; split <;> rfl
    have hpl : (startGame now st).1.player = st.player := by unfold startGame; split <;> rfl
    have hm : (startGame now st).1.moves = st.moves := by unfold startGame; split <;> rfl
    have hd : (startGame now st).1.decisions = st.decisions := by unfold startGame; split <;> rfl
    rw [hp, hpl, hm, hd]
    exact ih
  | reset st w h f cf ef res _ hgen ih => simp [resetGame]

/-- C10 witness: the invariant holds at the concrete reachable state
`demoActive`. -/
theorem c10_path_invariant_witness :
    demoActive.path ≠ [] ∧ demoActive.path.getLast? = some demoActive.player ∧
    demoActive.moves = demoActive.decisions :=
  c10_path_invariant demoActive
    (ReachableSession.step demoInit ("right") 1000
      (ReachableSession.init 5 5 (fun _ => 0) 50 5 demoRes rfl))

/-! ## C1: the generated maze is a perfect maze

Basic facts about cell updates and the open region. -/

theorem setCell_same (g : ℤ × ℤ → ℕ) (p : ℤ × ℤ) (v : ℕ) : setCell g p v p = v := by
  simp [setCell]

theorem setCell_ne (g : ℤ × ℤ → ℕ) (p : ℤ × ℤ) (v : ℕ) {q : ℤ × ℤ} (h : q ≠ p) :
    setCell g p v q = g q := by
  simp [setCell, h]

theorem mem_dom {w h : ℤ} {p : ℤ × ℤ} :
    p ∈ dom w h ↔ 0 ≤ p.1 ∧ p.1 ≤ w - 1 ∧ 0 ≤ p.2 ∧ p.2 ≤ h - 1 := by
  simp only [dom, Finset.mem_product, Finset.mem_Icc]
  tauto

theorem mem_openCells {w h : ℤ} {g : ℤ × ℤ → ℕ} {p : ℤ × ℤ} :
    p ∈ openCells w h g ↔ p ∈ dom w h ∧ g p ≠ 1 := by
  simp [openCells, Finset.mem_filter]

theorem open_mono_setZero {g : ℤ × ℤ → ℕ} (p : ℤ × ℤ) {q : ℤ × ℤ} (hq : g q ≠ 1) :
    setCell g p 0 q ≠ 1 := by
  by_cases h : q = p
  · subst h; rw [setCell_same]; omega
  · rw [setCell_ne g p 0 h]; exact hq

theorem openCells_setZero {w h : ℤ} {g : ℤ × ℤ → ℕ} {p : ℤ × ℤ} (hp : p ∈ dom w h) :
    openCells w h (setCell g p 0) = insert p (openCells w h g) := by
  ext q
  by_cases hq : q = p
  · subst hq
    simp [mem_openCells, hp, setCell_same]
  · simp only [mem_openCells, Finset.mem_insert, hq, false_or]
    rw [setCell_ne g p 0 hq]

theorem openCells_subset_setZero {w h : ℤ} {g : ℤ × ℤ → ℕ} {p : ℤ × ℤ} :
    openCells w h g ⊆ openCells w h (setCell g p 0) := by
  intro q hq
  rw [mem_openCells] at hq ⊢
  exact ⟨hq.1, open_mono_setZero p hq.2⟩

theorem openCells_setTwo {w h : ℤ} {g : ℤ × ℤ → ℕ} {p : ℤ × ℤ} (hp : g p ≠ 1) :
    openCells w h (setCell g p 2) = openCells w h g := by
  ext q
  by_cases hq : q = p
  · subst hq
    simp [mem_openCells, setCell_same, hp]
  · simp only [mem_openCells]
    rw [setCell_ne g p 2 hq]

theorem openCells_setZero_open {w h : ℤ} {g : ℤ × ℤ → ℕ} {p : ℤ × ℤ} (hp : g p ≠ 1) :
    openCells w h (setCell g p 0) = openCells w h g := by
  ext q
  by_cases hq : q = p
  · subst hq
    simp [mem_openCells, setCell_same, hp]
  · simp only [mem_openCells]
    rw [setCell_ne g p 0 hq]

theorem reach_mono {w h : ℤ} {g g' : ℤ × ℤ → ℕ}
    (hsub : openCells w h g ⊆ openCells w h g') {p q : ℤ × ℤ}
    (hr : reach w h g p q) : reach w h g' p q := by
  refine Relation.ReflTransGen.mono ?_ hr
  intro a b hab
  exact ⟨hsub hab.1, hab.2⟩

theorem reach_congr {w h : ℤ} {g g' : ℤ × ℤ → ℕ}
    (heq : openCells w h g = openCells w h g') {p q : ℤ × ℤ}
    (hr : reach w h g p q) : reach w h g' p q :=
  reach_mono (by rw [heq]) hr

theorem edgeSet_congr {w h : ℤ} {g g' : ℤ × ℤ → ℕ}
    (heq : openCells w h g = openCells w h g') : edgeSet w h g = edgeSet w h g' := by
  unfold edgeSet
  rw [heq]

theorem mem_edgeSet {w h : ℤ} {g : ℤ × ℤ → ℕ} {e : (ℤ × ℤ) × (ℤ × ℤ)} :
    e ∈ edgeSet w h g ↔
      e.1 ∈ openCells w h g ∧ e.2 ∈ openCells w h g ∧
        (e.2 = (e.1.1 + 1, e.1.2) ∨ e.2 = (e.1.1, e.1.2 + 1)) := by
  simp [edgeSet, Finset.mem_filter, Finset.mem_product, and_assoc]

theorem mem_neighborsList {g : ℤ × ℤ → ℕ} {w h x y : ℤ} {d : ℤ × ℤ}
    (hd : d ∈ neighborsList g w h x y) :
    d ∈ directions ∧ 0 < x + d.1 ∧ x + d.1 < w - 1 ∧ 0 < y + d.2 ∧
      y + d.2 < h - 1 ∧ g (x + d.1, y + d.2) = 1 := by
  unfold neighborsList at hd
  rw [List.mem_filter] at hd
  exact ⟨hd.1, of_decide_eq_true hd.2⟩

theorem directions_cases {d : ℤ × ℤ} (hd : d ∈ directions) :
    d = (0, -2) ∨ d = (2, 0) ∨ d = (0, 2) ∨ d = (-2, 0) := by
  simpa [directions] using hd

theorem CarveInv.not_open_horiz {w h : ℤ} {g : ℤ × ℤ → ℕ} {stack : List (ℤ × ℤ)}
    (inv : CarveInv w h g stack) {p : ℤ × ℤ} (hpar : p.1 % 2 = 0)
    (hside : g (p.1 - 1, p.2) = 1 ∨ g (p.1 + 1, p.2) = 1) :
    p ∉ openCells w h g := by
  intro hp
  obtain ⟨hl, hr⟩ := inv.mid_horiz p hp hpar
  rcases hside with hs | hs
  · exact hl hs
  · exact hr hs

theorem CarveInv.not_open_vert {w h : ℤ} {g : ℤ × ℤ → ℕ} {stack : List (ℤ × ℤ)}
    (inv : CarveInv w h g stack) {p : ℤ × ℤ} (hpar : p.2 % 2 = 0)
    (hside : g (p.1, p.2 - 1) = 1 ∨ g (p.1, p.2 + 1) = 1) :
    p ∉ openCells w h g := by
  intro hp
  obtain ⟨hl, hr⟩ := inv.mid_vert p hp hpar
  rcases hside with hs | hs
  · exact hl hs
  · exact hr hs

theorem CarveInv.not_open_ee {w h : ℤ} {g : ℤ × ℤ → ℕ} {stack : List (ℤ × ℤ)}
    (inv : CarveInv w h g stack) {p : ℤ × ℤ} (h1 : p.1 % 2 = 0) (h2 : p.2 % 2 = 0) :
    p ∉ openCells w h g := by
  intro hp
  rcases inv.no_even_even p hp with hc | hc <;> omega

theorem edgeSet_carve_right {w h : ℤ} {g : ℤ × ℤ → ℕ} {x y : ℤ} {rest : List (ℤ × ℤ)}
    (inv : CarveInv w h g ((x, y) :: rest))
    (hwall : g (x + 2, y) = 1) (hmw : g (x + 1, y) = 1)
    (hmdom : ((x + 1 : ℤ), y) ∈ dom w h) (hbdom : ((x + 2 : ℤ), y) ∈ dom w h) :
    edgeSet w h (setCell (setCell g (x + 1, y) 0) (x + 2, y) 0)
      = insert ((x, y), (x + 1, y))
          (insert ((x + 1, y), (x + 2, y)) (edgeSet w h g)) := by
  have hstack := inv.stack_open (x, y) (List.mem_cons_self _ _)
  have ha : (x, y) ∈ openCells w h g := hstack.1
  have hxodd : x % 2 = 1 := hstack.2.1
  have hyodd : y % 2 = 1 := hstack.2.2
  have hmA : ((x + 1 : ℤ), y) ∉ openCells w h g := by
    rw [mem_openCells]
    rintro ⟨-, hne⟩
    exact hne hmw
  have hA' : openCells w h (setCell (setCell g (x + 1, y) 0) (x + 2, y) 0)
      = insert ((x + 2 : ℤ), y) (insert ((x + 1 : ℤ), y) (openCells w h g)) := by
    rw [openCells_setZero hbdom, openCells_setZero hmdom]
  ext e
  obtain ⟨⟨u1, u2⟩, v1, v2⟩ := e
  rw [mem_edgeSet, Finset.mem_insert, Finset.mem_insert, mem_edgeSet, hA']
  dsimp only
  simp only [Finset.mem_insert, Prod.mk.injEq]
  constructor
  · rintro ⟨h1, h2, h3⟩
    rcases h1 with ⟨hu1, hu2⟩ | ⟨hu1, hu2⟩ | h1A
    · exfalso
      rcases h3 with ⟨hv1, hv2⟩ | ⟨hv1, hv2⟩
      · rcases h2 with ⟨a1, a2⟩ | ⟨a1, a2⟩ | h2A
        · omega
        · omega
        · refine inv.not_open_horiz (p := (v1, v2)) (by dsimp only; omega) ?_ h2A
          left
          show g (v1 - 1, v2) = 1
          rw [show v1 - 1 = x + 2 by omega, show v2 = y by omega]
          exact hwall
      · rcases h2 with ⟨a1, a2⟩ | ⟨a1, a2⟩ | h2A
        · omega
        · omega
        · refine inv.not_open_vert (p := (v1, v2)) (by dsimp only; omega) ?_ h2A
          left
          show g (v1, v2 - 1) = 1
          rw [show v1 = x + 2 by omega, show v2 - 1 = y by omega]
          exact hwall
    · rcases h3 with ⟨hv1, hv2⟩ | ⟨hv1, hv2⟩
      · right; left
        exact ⟨⟨hu1, hu2⟩, by omega, by omega⟩
      · exfalso
        rcases h2 with ⟨a1, a2⟩ | ⟨a1, a2⟩ | h2A
        · omega
        · omega
        · exact inv.not_open_ee (p := (v1, v2)) (by dsimp only; omega)
            (by dsimp only; omega) h2A
    · rcases h3 with ⟨hv1, hv2⟩ | ⟨hv1, hv2⟩
      · rcases h2 with ⟨a1, a2⟩ | ⟨a1, a2⟩ | h2A
        · exfalso
          have hum : ((u1 : ℤ), u2) = ((x + 1 : ℤ), y) := by
            rw [Prod.mk.injEq]
            omega
          rw [hum] at h1A
          exact hmA h1A
        · left
          exact ⟨⟨by omega, by omega⟩, by omega, by omega⟩
        · right; right
          exact ⟨h1A, h2A, Or.inl ⟨hv1, hv2⟩⟩
      · rcases h2 with ⟨a1, a2⟩ | ⟨a1, a2⟩ | h2A
        · exfalso
          refine inv.not_open_vert (p := (u1, u2)) (by dsimp only; omega) ?_ h1A
          right
          show g (u1, u2 + 1) = 1
          rw [show u1 = x + 2 by omega, show u2 + 1 = y by omega]
          exact hwall
        · exfalso
          exact inv.not_open_ee (p := (u1, u2)) (by dsimp only; omega)
            (by dsimp only; omega) h1A
        · right; right
          exact ⟨h1A, h2A, Or.inr ⟨hv1, hv2⟩⟩
  · rintro (⟨⟨rfl, rfl⟩, rfl, rfl⟩ | ⟨⟨rfl, rfl⟩, rfl, rfl⟩ | ⟨h1, h2, h3⟩)
    · exact ⟨Or.inr (Or.inr ha), Or.inr (Or.inl ⟨rfl, rfl⟩), Or.inl ⟨rfl, rfl⟩⟩
    · exact ⟨Or.inr (Or.inl ⟨rfl, rfl⟩), Or.inl ⟨rfl, rfl⟩, Or.inl ⟨by omega, rfl⟩⟩
    · exact ⟨Or.inr (Or.inr h1), Or.inr (Or.inr h2), h3⟩

theorem carve_step_right {w h : ℤ} {g : ℤ × ℤ → ℕ} {x y : ℤ} {rest : List (ℤ × ℤ)}
    (inv : CarveInv w h g ((x, y) :: rest))
    (hb1 : 0 < x + 2) (hb2 : x + 2 < w - 1) (hb3 : 0 < y) (hb4 : y < h - 1)
    (hwall : g (x + 2, y) = 1) :
    CarveInv w h (setCell (setCell g (x + 1, y) 0) (x + 2, y) 0)
      ((x + 2, y) :: (x, y) :: rest) := by
  have hstack := inv.stack_open (x, y) (List.mem_cons_self _ _)
  have ha : (x, y) ∈ openCells w h g := hstack.1
  have hxodd : x % 2 = 1 := hstack.2.1
  have hyodd : y % 2 = 1 := hstack.2.2
  obtain ⟨hi1, hi2, hi3, hi4⟩ := inv.open_interior (x, y) ha
  dsimp only at hi1 hi2 hi3 hi4
  have hmdom : ((x + 1 : ℤ), y) ∈ dom w h :=
    mem_dom.mpr ⟨by dsimp only; omega, by dsimp only; omega,
      by dsimp only; omega, by dsimp only; omega⟩
  have hbdom : ((x + 2 : ℤ), y) ∈ dom w h :=
    mem_dom.mpr ⟨by dsimp only; omega, by dsimp only; omega,
      by dsimp only; omega, by dsimp only; omega⟩
  have hmw : g (x + 1, y) = 1 := by
    by_contra hmo
    have hmem : ((x + 1 : ℤ), y) ∈ openCells w h g := mem_openCells.mpr ⟨hmdom, hmo⟩
    obtain ⟨-, hr⟩ := inv.mid_horiz (x + 1, y) hmem (by dsimp only; omega)
    apply hr
    show g (x + 1 + 1, y) = 1
    rw [show (x : ℤ) + 1 + 1 = x + 2 by omega]
    exact hwall
  have hmA : ((x + 1 : ℤ), y) ∉ openCells w h g := by
    rw [mem_openCells]
    rintro ⟨-, hne⟩
    exact hne hmw
  have hbA : ((x + 2 : ℤ), y) ∉ openCells w h g := by
    rw [mem_openCells]
    rintro ⟨-, hne⟩
    exact hne hwall
  have hga : g (x, y) ≠ 1 := (mem_openCells.mp ha).2
  have hA' : openCells w h (setCell (setCell g (x + 1, y) 0) (x + 2, y) 0)
      = insert ((x + 2 : ℤ), y) (insert ((x + 1 : ℤ), y) (openCells w h g)) := by
    rw [openCells_setZero hbdom, openCells_setZero hmdom]
  have hE := edgeSet_carve_right inv hwall hmw hmdom hbdom
  have hsub : openCells w h g
      ⊆ openCells w h (setCell (setCell g (x + 1, y) 0) (x + 2, y) 0) :=
    openCells_subset_setZero.trans openCells_subset_setZero
  refine ⟨?_, ?_, ?_, ?_, ?_, ?_, ?_, ?_⟩
  · exact open_mono_setZero _ (open_mono_setZero _ inv.start_open)
  · intro p hp
    rw [hA', Finset.mem_insert, Finset.mem_insert] at hp
    rcases hp with rfl | rfl | hpA
    · exact ⟨by dsimp only; omega, by dsimp only; omega,
        by dsimp only; omega, by dsimp only; omega⟩
    · exact ⟨by dsimp only; omega, by dsimp only; omega,
        by dsimp only; omega, by dsimp only; omega⟩
    · exact inv.open_interior p hpA
  · intro p hp
    rw [hA', Finset.mem_insert, Finset.mem_insert] at hp
    rcases hp with rfl | rfl | hpA
    · left; dsimp only; omega
    · right; dsimp only; omega
    · exact inv.no_even_even p hpA
  · intro p hp hpar
    rw [hA', Finset.mem_insert, Finset.mem_insert] at hp
    rcases hp with rfl | rfl | hpA
    · exact absurd hpar (by dsimp only; omega)
    · dsimp only at hpar ⊢
      constructor
      · rw [show (x : ℤ) + 1 - 1 = x by omega]
        exact open_mono_setZero _ (open_mono_setZero _ hga)
      · rw [show (x : ℤ) + 1 + 1 = x + 2 by omega]
        rw [setCell_same]
        omega
    · obtain ⟨hl, hr⟩ := inv.mid_horiz p hpA hpar
      exact ⟨open_mono_setZero _ (open_mono_setZero _ hl),
        open_mono_setZero _ (open_mono_setZero _ hr)⟩
  · intro p hp hpar
    rw [hA', Finset.mem_insert, Finset.mem_insert] at hp
    rcases hp with rfl | rfl | hpA
    · exact absurd hpar (by dsimp only; omega)
    · exact absurd hpar (by dsimp only; omega)
    · obtain ⟨hl, hr⟩ := inv.mid_vert p hpA hpar
      exact ⟨open_mono_setZero _ (open_mono_setZero _ hl),
        open_mono_setZero _ (open_mono_setZero _ hr)⟩
  · intro p hp
    rcases List.mem_cons.mp hp with rfl | hp'
    · refine ⟨?_, by dsimp only; omega, by dsimp only; omega⟩
      rw [hA']
      exact Finset.mem_insert_self _ _
    · rcases List.mem_cons.mp hp' with rfl | hp''
      · refine ⟨hsub ha, by dsimp only; omega, by dsimp only; omega⟩
      · obtain ⟨hmem, hp1, hp2⟩ := inv.stack_open p (List.mem_cons_of_mem _ hp'')
        exact ⟨hsub hmem, hp1, hp2⟩
  · intro p hp
    have hreach_a : reach w h (setCell (setCell g (x + 1, y) 0) (x + 2, y) 0) (1, 1) (x, y) :=
      reach_mono hsub (inv.conn (x, y) ha)
    have hm_mem : ((x + 1 : ℤ), y)
        ∈ openCells w h (setCell (setCell g (x + 1, y) 0) (x + 2, y) 0) := by
      rw [hA']
      exact Finset.mem_insert_of_mem (Finset.mem_insert_self _ _)
    have hb_mem : ((x + 2 : ℤ), y)
        ∈ openCells w h (setCell (setCell g (x + 1, y) 0) (x + 2, y) 0) := by
      rw [hA']
      exact Finset.mem_insert_self _ _
    have hreach_m : reach w h (setCell (setCell g (x + 1, y) 0) (x + 2, y) 0) (1, 1) (x + 1, y) :=
      hreach_a.tail ⟨hm_mem, Or.inl rfl⟩
    rw [hA', Finset.mem_insert, Finset.mem_insert] at hp
    rcases hp with rfl | rfl | hpA
    · refine hreach_m.tail ⟨hb_mem, Or.inl ?_⟩
      rw [Prod.mk.injEq]
      exact ⟨by dsimp only; omega, rfl⟩
    · exact hreach_m
    · exact reach_mono hsub (inv.conn p hpA)
  · rw [hE, hA']
    have hmb : ((x + 1 : ℤ), y) ≠ ((x + 2 : ℤ), y) := by
      rw [Ne, Prod.mk.injEq]
      rintro ⟨h1, -⟩
      omega
    have hcells : (insert ((x + 2 : ℤ), y) (insert ((x + 1 : ℤ), y) (openCells w h g))).card
        = (openCells w h g).card + 2 := by
      rw [Finset.card_insert_of_not_mem, Finset.card_insert_of_not_mem hmA]
      rw [Finset.mem_insert]
      rintro (hc | hc)
      · exact hmb hc.symm
      · exact hbA hc
    have he1 : (((x : ℤ), y), ((x + 1 : ℤ), y))
        ∉ insert ((((x + 1 : ℤ), y), ((x + 2 : ℤ), y))) (edgeSet w h g) := by
      rw [Finset.mem_insert]
      rintro (hc | hc)
      · rw [Prod.mk.injEq, Prod.mk.injEq, Prod.mk.injEq] at hc
        omega
      · exact hmA (mem_edgeSet.mp hc).2.1
    have he2 : (((x + 1 : ℤ), y), ((x + 2 : ℤ), y)) ∉ edgeSet w h g := by
      intro hc
      exact hmA (mem_edgeSet.mp hc).1
    rw [Finset.card_insert_of_not_mem he1, Finset.card_insert_of_not_mem he2, hcells]
    have := inv.tree
    omega

theorem edgeSet_carve_left {w h : ℤ} {g : ℤ × ℤ → ℕ} {x y : ℤ} {rest : List (ℤ × ℤ)}
    (inv : CarveInv w h g ((x, y) :: rest))
    (hwall : g (x - 2, y) = 1) (hmw : g (x - 1, y) = 1)
    (hmdom : ((x - 1 : ℤ), y) ∈ dom w h) (hbdom : ((x - 2 : ℤ), y) ∈ dom w h) :
    edgeSet w h (setCell (setCell g (x - 1, y) 0) (x - 2, y) 0)
      = insert ((x - 2, y), (x - 1, y))
          (insert ((x - 1, y), (x, y)) (edgeSet w h g)) := by
  have hstack := inv.stack_open (x, y) (List.mem_cons_self _ _)
  have ha : (x, y) ∈ openCells w h g := hstack.1
  have hxodd : x % 2 = 1 := hstack.2.1
  have hyodd : y % 2 = 1 := hstack.2.2
  have hmA : ((x - 1 : ℤ), y) ∉ openCells w h g := by
    rw [mem_openCells]
    rintro ⟨-, hne⟩
    exact hne hmw
  have hbA : ((x - 2 : ℤ), y) ∉ openCells w h g := by
    rw [mem_openCells]
    rintro ⟨-, hne⟩
    exact hne hwall
  have hA' : openCells w h (setCell (setCell g (x - 1, y) 0) (x - 2, y) 0)
      = insert ((x - 2 : ℤ), y) (insert ((x - 1 : ℤ), y) (openCells w h g)) := by
    rw [openCells_setZero hbdom, openCells_setZero hmdom]
  ext e
  obtain ⟨⟨u1, u2⟩, v1, v2⟩ := e
  rw [mem_edgeSet, Finset.mem_insert, Finset.mem_insert, mem_edgeSet, hA']
  dsimp only
  simp only [Finset.mem_insert, Prod.mk.injEq]
  constructor
  · rintro ⟨h1, h2, h3⟩
    rcases h1 with ⟨hu1, hu2⟩ | ⟨hu1, hu2⟩ | h1A
    · rcases h3 with ⟨hv1, hv2⟩ | ⟨hv1, hv2⟩
      · left
        exact ⟨⟨hu1, hu2⟩, by omega, by omega⟩
      · exfalso
        rcases h2 with ⟨a1, a2⟩ | ⟨a1, a2⟩ | h2A
        · omega
        · omega
        · refine inv.not_open_vert (p := (v1, v2)) (by dsimp only; omega) ?_ h2A
          left
          show g (v1, v2 - 1) = 1
          rw [show v1 = x - 2 by omega, show v2 - 1 = y by omega]
          exact hwall
    · rcases h3 with ⟨hv1, hv2⟩ | ⟨hv1, hv2⟩
      · right; left
        exact ⟨⟨hu1, hu2⟩, by omega, by omega⟩
      · exfalso
        rcases h2 with ⟨a1, a2⟩ | ⟨a1, a2⟩ | h2A
        · omega
        · omega
        · exact inv.not_open_ee (p := (v1, v2)) (by dsimp only; omega)
            (by dsimp only; omega) h2A
    · rcases h3 with ⟨hv1, hv2⟩ | ⟨hv1, hv2⟩
      · rcases h2 with ⟨a1, a2⟩ | ⟨a1, a2⟩ | h2A
        · exfalso
          refine inv.not_open_horiz (p := (u1, u2)) (by dsimp only; omega) ?_ h1A
          right
          show g (u1 + 1, u2) = 1
          rw [show u1 + 1 = x - 2 by omega, show u2 = y by omega]
          exact hwall
        · exfalso
          have hum : ((u1 : ℤ), u2) = ((x - 2 : ℤ), y) := by
            rw [Prod.mk.injEq]
            omega
          rw [hum] at h1A
          exact hbA h1A
        · right; right
          exact ⟨h1A, h2A, Or.inl ⟨hv1, hv2⟩⟩
      · rcases h2 with ⟨a1, a2⟩ | ⟨a1, a2⟩ | h2A
        · exfalso
          refine inv.not_open_vert (p := (u1, u2)) (by dsimp only; omega) ?_ h1A
          right
          show g (u1, u2 + 1) = 1
          rw [show u1 = x - 2 by omega, show u2 + 1 = y by omega]
          exact hwall
        · exfalso
          exact inv.not_open_ee (p := (u1, u2)) (by dsimp only; omega)
            (by dsimp only; omega) h1A
        · right; right
          exact ⟨h1A, h2A, Or.inr ⟨hv1, hv2⟩⟩
  · rintro (⟨⟨rfl, rfl⟩, rfl, rfl⟩ | ⟨⟨rfl, rfl⟩, rfl, rfl⟩ | ⟨h1, h2, h3⟩)
    · exact ⟨Or.inl ⟨rfl, rfl⟩, Or.inr (Or.inl ⟨by omega, rfl⟩), Or.inl ⟨by omega, rfl⟩⟩
    · exact ⟨Or.inr (Or.inl ⟨rfl, rfl⟩), Or.inr (Or.inr ha), Or.inl ⟨by omega, rfl⟩⟩
    · exact ⟨Or.inr (Or.inr h1), Or.inr (Or.inr h2), h3⟩

theorem carve_step_left {w h : ℤ} {g : ℤ × ℤ → ℕ} {x y : ℤ} {rest : List (ℤ × ℤ)}
    (inv : CarveInv w h g ((x, y) :: rest))
    (hb1 : 0 < x - 2) (hb2 : x - 2 < w - 1) (hb3 : 0 < y) (hb4 : y < h - 1)
    (hwall : g (x - 2, y) = 1) :
    CarveInv w h (setCell (setCell g (x - 1, y) 0) (x - 2, y) 0)
      ((x - 2, y) :: (x, y) :: rest) := by
  have hstack := inv.stack_open (x, y) (List.mem_cons_self _ _)
  have ha : (x, y) ∈ openCells w h g := hstack.1
  have hxodd : x % 2 = 1 := hstack.2.1
  have hyodd : y % 2 = 1 := hstack.2.2
  obtain ⟨hi1, hi2, hi3, hi4⟩ := inv.open_interior (x, y) ha
  dsimp only at hi1 hi2 hi3 hi4
  have hmdom : ((x - 1 : ℤ), y) ∈ dom w h :=
    mem_dom.mpr ⟨by dsimp only; omega, by dsimp only; omega,
      by dsimp only; omega, by dsimp only; omega⟩
  have hbdom : ((x - 2 : ℤ), y) ∈ dom w h :=
    mem_dom.mpr ⟨by dsimp only; omega, by dsimp only; omega,
      by dsimp only; omega, by dsimp only; omega⟩
  have hmw : g (x - 1, y) = 1 := by
    by_contra hmo
    have hmem : ((x - 1 : ℤ), y) ∈ openCells w h g := mem_openCells.mpr ⟨hmdom, hmo⟩
    obtain ⟨hl, -⟩ := inv.mid_horiz (x - 1, y) hmem (by dsimp only; omega)
    apply hl
    show g (x - 1 - 1, y) = 1
    rw [show (x : ℤ) - 1 - 1 = x - 2 by omega]
    exact hwall
  have hmA : ((x - 1 : ℤ), y) ∉ openCells w h g := by
    rw [mem_openCells]
    rintro ⟨-, hne⟩
    exact hne hmw
  have hbA : ((x - 2 : ℤ), y) ∉ openCells w h g := by
    rw [mem_openCells]
    rintro ⟨-, hne⟩
    exact hne hwall
  have hga : g (x, y) ≠ 1 := (mem_openCells.mp ha).2
  have hA' : openCells w h (setCell (setCell g (x - 1, y) 0) (x - 2, y) 0)
      = insert ((x - 2 : ℤ), y) (insert ((x - 1 : ℤ), y) (openCells w h g)) := by
    rw [openCells_setZero hbdom, openCells_setZero hmdom]
  have hE := edgeSet_carve_left inv hwall hmw hmdom hbdom
  have hsub : openCells w h g
      ⊆ openCells w h (setCell (setCell g (x - 1, y) 0) (x - 2, y) 0) :=
    openCells_subset_setZero.trans openCells_subset_setZero
  refine ⟨?_, ?_, ?_, ?_, ?_, ?_, ?_, ?_⟩
  · exact open_mono_setZero _ (open_mono_setZero _ inv.start_open)
  · intro p hp
    rw [hA', Finset.mem_insert, Finset.mem_insert] at hp
    rcases hp with rfl | rfl | hpA
    · exact ⟨by dsimp only; omega, by dsimp only; omega,
        by dsimp only; omega, by dsimp only; omega⟩
    · exact ⟨by dsimp only; omega, by dsimp only; omega,
        by dsimp only; omega, by dsimp only; omega⟩
    · exact inv.open_interior p hpA
  · intro p hp
    rw [hA', Finset.mem_insert, Finset.mem_insert] at hp
    rcases hp with rfl | rfl | hpA
    · left; dsimp only; omega
    · right; dsimp only; omega
    · exact inv.no_even_even p hpA
  · intro p hp hpar
    rw [hA', Finset.mem_insert, Finset.mem_insert] at hp
    rcases hp with rfl | rfl | hpA
    · exact absurd hpar (by dsimp only; omega)
    · dsimp only at hpar ⊢
      constructor
      · rw [show (x : ℤ) - 1 - 1 = x - 2 by omega]
        rw [setCell_same]
        omega
      · rw [show (x : ℤ) - 1 + 1 = x by omega]
        exact open_mono_setZero _ (open_mono_setZero _ hga)
    · obtain ⟨hl, hr⟩ := inv.mid_horiz p hpA hpar
      exact ⟨open_mono_setZero _ (open_mono_setZero _ hl),
        open_mono_setZero _ (open_mono_setZero _ hr)⟩
  · intro p hp hpar
    rw [hA', Finset.mem_insert, Finset.mem_insert] at hp
    rcases hp with rfl | rfl | hpA
    · exact absurd hpar (by dsimp only; omega)
    · exact absurd hpar (by dsimp only; omega)
    · obtain ⟨hl, hr⟩ := inv.mid_vert p hpA hpar
      exact ⟨open_mono_setZero _ (open_mono_setZero _ hl),
        open_mono_setZero _ (open_mono_setZero _ hr)⟩
  · intro p hp
    rcases List.mem_cons.mp hp with rfl | hp'
    · refine ⟨?_, by dsimp only; omega, by dsimp only; omega⟩
      rw [hA']
      exact Finset.mem_insert_self _ _
    · rcases List.mem_cons.mp hp' with rfl | hp''
      · refine ⟨hsub ha, by dsimp only; omega, by dsimp only; omega⟩
      · obtain ⟨hmem, hp1, hp2⟩ := inv.stack_open p (List.mem_cons_of_mem _ hp'')
        exact ⟨hsub hmem, hp1, hp2⟩
  · intro p hp
    have hreach_a : reach w h (setCell (setCell g (x - 1, y) 0) (x - 2, y) 0) (1, 1) (x, y) :=
      reach_mono hsub (inv.conn (x, y) ha)
    have hm_mem : ((x - 1 : ℤ), y)
        ∈ openCells w h (setCell (setCell g (x - 1, y) 0) (x - 2, y) 0) := by
      rw [hA']
      exact Finset.mem_insert_of_mem (Finset.mem_insert_self _ _)
    have hb_mem : ((x - 2 : ℤ), y)
        ∈ openCells w h (setCell (setCell g (x - 1, y) 0) (x - 2, y) 0) := by
      rw [hA']
      exact Finset.mem_insert_self _ _
    have hreach_m : reach w h (setCell (setCell g (x - 1, y) 0) (x - 2, y) 0) (1, 1) (x - 1, y) :=
      hreach_a.tail ⟨hm_mem, Or.inr (Or.inl rfl)⟩
    rw [hA', Finset.mem_insert, Finset.mem_insert] at hp
    rcases hp with rfl | rfl | hpA
    · refine hreach_m.tail ⟨hb_mem, Or.inr (Or.inl ?_)⟩
      rw [Prod.mk.injEq]
      exact ⟨by dsimp only; omega, rfl⟩
    · exact hreach_m
    · exact reach_mono hsub (inv.conn p hpA)
  · rw [hE, hA']
    have hcells : (insert ((x - 2 : ℤ), y) (insert ((x - 1 : ℤ), y) (openCells w h g))).card
        = (openCells w h g).card + 2 := by
      rw [Finset.card_insert_of_not_mem, Finset.card_insert_of_not_mem hmA]
      rw [Finset.mem_insert]
      rintro (hc | hc)
      · rw [Prod.mk.injEq] at hc
        omega
      · exact hbA hc
    have he1 : (((x - 2 : ℤ), y), ((x - 1 : ℤ), y))
        ∉ insert ((((x - 1 : ℤ), y), ((x : ℤ), y))) (edgeSet w h g) := by
      rw [Finset.mem_insert]
      rintro (hc | hc)
      · rw [Prod.mk.injEq, Prod.mk.injEq, Prod.mk.injEq] at hc
        omega
      · exact hbA (mem_edgeSet.mp hc).1
    have he2 : (((x - 1 : ℤ), y), ((x : ℤ), y)) ∉ edgeSet w h g := by
      intro hc
      exact hmA (mem_edgeSet.mp hc).1
    rw [Finset.card_insert_of_not_mem he1, Finset.card_insert_of_not_mem he2, hcells]
    have := inv.tree
    omega

theorem edgeSet_carve_down {w h : ℤ} {g : ℤ × ℤ → ℕ} {x y : ℤ} {rest : List (ℤ × ℤ)}
    (inv : CarveInv w h g ((x, y) :: rest))
    (hwall : g (x, y + 2) = 1) (hmw : g (x, y + 1) = 1)
    (hmdom : ((x : ℤ), y + 1) ∈ dom w h) (hbdom : ((x : ℤ), y + 2) ∈ dom w h) :
    edgeSet w h (setCell (setCell g (x, y + 1) 0) (x, y + 2) 0)
      = insert ((x, y), (x, y + 1))
          (insert ((x, y + 1), (x, y + 2)) (edgeSet w h g)) := by
  have hstack := inv.stack_open (x, y) (List.mem_cons_self _ _)
  have ha : (x, y) ∈ openCells w h g := hstack.1
  have hxodd : x % 2 = 1 := hstack.2.1
  have hyodd : y % 2 = 1 := hstack.2.2
  have hmA : ((x : ℤ), y + 1) ∉ openCells w h g := by
    rw [mem_openCells]
    rintro ⟨-, hne⟩
    exact hne hmw
  have hbA : ((x : ℤ), y + 2) ∉ openCells w h g := by
    rw [mem_openCells]
    rintro ⟨-, hne⟩
    exact hne hwall
  have hA' : openCells w h (setCell (setCell g (x, y + 1) 0) (x, y + 2) 0)
      = insert ((x : ℤ), y + 2) (insert ((x : ℤ), y + 1) (openCells w h g)) := by
    rw [openCells_setZero hbdom, openCells_setZero hmdom]
  ext e
  obtain ⟨⟨u1, u2⟩, v1, v2⟩ := e
  rw [mem_edgeSet, Finset.mem_insert, Finset.mem_insert, mem_edgeSet, hA']
  dsimp only
  simp only [Finset.mem_insert, Prod.mk.injEq]
  constructor
  · rintro ⟨h1, h2, h3⟩
    rcases h1 with ⟨hu1, hu2⟩ | ⟨hu1, hu2⟩ | h1A
    · exfalso
      rcases h3 with ⟨hv1, hv2⟩ | ⟨hv1, hv2⟩
      · rcases h2 with ⟨a1, a2⟩ | ⟨a1, a2⟩ | h2A
        · omega
        · omega
        · refine inv.not_open_horiz (p := (v1, v2)) (by dsimp only; omega) ?_ h2A
          left
          show g (v1 - 1, v2) = 1
          rw [show v1 - 1 = x by omega, show v2 = y + 2 by omega]
          exact hwall
      · rcases h2 with ⟨a1, a2⟩ | ⟨a1, a2⟩ | h2A
        · omega
        · omega
        · refine inv.not_open_vert (p := (v1, v2)) (by dsimp only; omega) ?_ h2A
          left
          show g (v1, v2 - 1) = 1
          rw [show v1 = x by omega, show v2 - 1 = y + 2 by omega]
          exact hwall
    · rcases h3 with ⟨hv1, hv2⟩ | ⟨hv1, hv2⟩
      · exfalso
        rcases h2 with ⟨a1, a2⟩ | ⟨a1, a2⟩ | h2A
        · omega
        · omega
        · exact inv.not_open_ee (p := (v1, v2)) (by dsimp only; omega)
            (by dsimp only; omega) h2A
      · right; left
        exact ⟨⟨hu1, hu2⟩, by omega, by omega⟩
    · rcases h3 with ⟨hv1, hv2⟩ | ⟨hv1, hv2⟩
      · rcases h2 with ⟨a1, a2⟩ | ⟨a1, a2⟩ | h2A
        · exfalso
          refine inv.not_open_horiz (p := (u1, u2)) (by dsimp only; omega) ?_ h1A
          right
          show g (u1 + 1, u2) = 1
          rw [show u1 + 1 = x by omega, show u2 = y + 2 by omega]
          exact hwall
        · exfalso
          exact inv.not_open_ee (p := (u1, u2)) (by dsimp only; omega)
            (by dsimp only; omega) h1A
        · right; right
          exact ⟨h1A, h2A, Or.inl ⟨hv1, hv2⟩⟩
      · rcases h2 with ⟨a1, a2⟩ | ⟨a1, a2⟩ | h2A
        · exfalso
          have hum : ((u1 : ℤ), u2) = ((x : ℤ), y + 1) := by
            rw [Prod.mk.injEq]
            omega
          rw [hum] at h1A
          exact hmA h1A
        · left
          exact ⟨⟨by omega, by omega⟩, by omega, by omega⟩
        · right; right
          exact ⟨h1A, h2A, Or.inr ⟨hv1, hv2⟩⟩
  · rintro (⟨⟨rfl, rfl⟩, rfl, rfl⟩ | ⟨⟨rfl, rfl⟩, rfl, rfl⟩ | ⟨h1, h2, h3⟩)
    · exact ⟨Or.inr (Or.inr ha), Or.inr (Or.inl ⟨rfl, rfl⟩), Or.inr ⟨rfl, rfl⟩⟩
    · exact ⟨Or.inr (Or.inl ⟨rfl, rfl⟩), Or.inl ⟨rfl, by omega⟩, Or.inr ⟨rfl, by omega⟩⟩
    · exact ⟨Or.inr (Or.inr h1), Or.inr (Or.inr h2), h3⟩

theorem carve_step_down {w h : ℤ} {g : ℤ × ℤ → ℕ} {x y : ℤ} {rest : List (ℤ × ℤ)}
    (inv : CarveInv w h g ((x, y) :: rest))
    (hb1 : 0 < x) (hb2 : x < w - 1) (hb3 : 0 < y + 2) (hb4 : y + 2 < h - 1)
    (hwall : g (x, y + 2) = 1) :
    CarveInv w h (setCell (setCell g (x, y + 1) 0) (x, y + 2) 0)
      ((x, y + 2) :: (x, y) :: rest) := by
  have hstack := inv.stack_open (x, y) (List.mem_cons_self _ _)
  have ha : (x, y) ∈ openCells w h g := hstack.1
  have hxodd : x % 2 = 1 := hstack.2.1
  have hyodd : y % 2 = 1 := hstack.2.2
  obtain ⟨hi1, hi2, hi3, hi4⟩ := inv.open_interior (x, y) ha
  dsimp only at hi1 hi2 hi3 hi4
  have hmdom : ((x : ℤ), y + 1) ∈ dom w h :=
    mem_dom.mpr ⟨by dsimp only; omega, by dsimp only; omega,
      by dsimp only; omega, by dsimp only; omega⟩
  have hbdom : ((x : ℤ), y + 2) ∈ dom w h :=
    mem_dom.mpr ⟨by dsimp only; omega, by dsimp only; omega,
      by dsimp only; omega, by dsimp only; omega⟩
  have hmw : g (x, y + 1) = 1 := by
    by_contra hmo
    have hmem : ((x : ℤ), y + 1) ∈ openCells w h g := mem_openCells.mpr ⟨hmdom, hmo⟩
    obtain ⟨-, hr⟩ := inv.mid_vert (x, y + 1) hmem (by dsimp only; omega)
    apply hr
    show g (x, y + 1 + 1) = 1
    rw [show (y : ℤ) + 1 + 1 = y + 2 by omega]
    exact hwall
  have hmA : ((x : ℤ), y + 1) ∉ openCells w h g := by
    rw [mem_openCells]
    rintro ⟨-, hne⟩
    exact hne hmw
  have hbA : ((x : ℤ), y + 2) ∉ openCells w h g := by
    rw [mem_openCells]
    rintro ⟨-, hne⟩
    exact hne hwall
  have hga : g (x, y) ≠ 1 := (mem_openCells.mp ha).2
  have hA' : openCells w h (setCell (setCell g (x, y + 1) 0) (x, y + 2) 0)
      = insert ((x : ℤ), y + 2) (insert ((x : ℤ), y + 1) (openCells w h g)) := by
    rw [openCells_setZero hbdom, openCells_setZero hmdom]
  have hE := edgeSet_carve_down inv hwall hmw hmdom hbdom
  have hsub : openCells w h g
      ⊆ openCells w h (setCell (setCell g (x, y + 1) 0) (x, y + 2) 0) :=
    openCells_subset_setZero.trans openCells_subset_setZero
  refine ⟨?_, ?_, ?_, ?_, ?_, ?_, ?_, ?_⟩
  · exact open_mono_setZero _ (open_mono_setZero _ inv.start_open)
  · intro p hp
    rw [hA', Finset.mem_insert, Finset.mem_insert] at hp
    rcases hp with rfl | rfl | hpA
    · exact ⟨by dsimp only; omega, by dsimp only; omega,
        by dsimp only; omega, by dsimp only; omega⟩
    · exact ⟨by dsimp only; omega, by dsimp only; omega,
        by dsimp only; omega, by dsimp only; omega⟩
    · exact inv.open_interior p hpA
  · intro p hp
    rw [hA', Finset.mem_insert, Finset.mem_insert] at hp
    rcases hp with rfl | rfl | hpA
    · left; dsimp only; omega
    · left; dsimp only; omega
    · exact inv.no_even_even p hpA
  · intro p hp hpar
    rw [hA', Finset.mem_insert, Finset.mem_insert] at hp
    rcases hp with rfl | rfl | hpA
    · exact absurd hpar (by dsimp only; omega)
    · exact absurd hpar (by dsimp only; omega)
    · obtain ⟨hl, hr⟩ := inv.mid_horiz p hpA hpar
      exact ⟨open_mono_setZero _ (open_mono_setZero _ hl),
        open_mono_setZero _ (open_mono_setZero _ hr)⟩
  · intro p hp hpar
    rw [hA', Finset.mem_insert, Finset.mem_insert] at hp
    rcases hp with rfl | rfl | hpA
    · exact absurd hpar (by dsimp only; omega)
    · dsimp only at hpar ⊢
      constructor
      · rw [show (y : ℤ) + 1 - 1 = y by omega]
        exact open_mono_setZero _ (open_mono_setZero _ hga)
      · rw [show (y : ℤ) + 1 + 1 = y + 2 by omega]
        rw [setCell_same]
        omega
    · obtain ⟨hl, hr⟩ := inv.mid_vert p hpA hpar
      exact ⟨open_mono_setZero _ (open_mono_setZero _ hl),
        open_mono_setZero _ (open_mono_setZero _ hr)⟩
  · intro p hp
    rcases List.mem_cons.mp hp with rfl | hp'
    · refine ⟨?_, by dsimp only; omega, by dsimp only; omega⟩
      rw [hA']
      exact Finset.mem_insert_self _ _
    · rcases List.mem_cons.mp hp' with rfl | hp''
      · refine ⟨hsub ha, by dsimp only; omega, by dsimp only; omega⟩
      · obtain ⟨hmem, hp1, hp2⟩ := inv.stack_open p (List.mem_cons_of_mem _ hp'')
        exact ⟨hsub hmem, hp1, hp2⟩
  · intro p hp
    have hreach_a : reach w h (setCell (setCell g (x, y + 1) 0) (x, y + 2) 0) (1, 1) (x, y) :=
      reach_mono hsub (inv.conn (x, y) ha)
    have hm_mem : ((x : ℤ), y + 1)
        ∈ openCells w h (setCell (setCell g (x, y + 1) 0) (x, y + 2) 0) := by
      rw [hA']
      exact Finset.mem_insert_of_mem (Finset.mem_insert_self _ _)
    have hb_mem : ((x : ℤ), y + 2)
        ∈ openCells w h (setCell (setCell g (x, y + 1) 0) (x, y + 2) 0) := by
      rw [hA']
      exact Finset.mem_insert_self _ _
    have hreach_m : reach w h (setCell (setCell g (x, y + 1) 0) (x, y + 2) 0) (1, 1) (x, y + 1) :=
      hreach_a.tail ⟨hm_mem, Or.inr (Or.inr (Or.inl rfl))⟩
    rw [hA', Finset.mem_insert, Finset.mem_insert] at hp
    rcases hp with rfl | rfl | hpA
    · refine hreach_m.tail ⟨hb_mem, Or.inr (Or.inr (Or.inl ?_))⟩
      rw [Prod.mk.injEq]
      exact ⟨rfl, by dsimp only; omega⟩
    · exact hreach_m
    · exact reach_mono hsub (inv.conn p hpA)
  · rw [hE, hA']
    have hcells : (insert ((x : ℤ), y + 2) (insert ((x : ℤ), y + 1) (openCells w h g))).card
        = (openCells w h g).card + 2 := by
      rw [Finset.card_insert_of_not_mem, Finset.card_insert_of_not_mem hmA]
      rw [Finset.mem_insert]
      rintro (hc | hc)
      · rw [Prod.mk.injEq] at hc
        omega
      · exact hbA hc
    have he1 : (((x : ℤ), y), ((x : ℤ), y + 1))
        ∉ insert ((((x : ℤ), y + 1), ((x : ℤ), y + 2))) (edgeSet w h g) := by
      rw [Finset.mem_insert]
      rintro (hc | hc)
      · rw [Prod.mk.injEq, Prod.mk.injEq, Prod.mk.injEq] at hc
        omega
      · exact hmA (mem_edgeSet.mp hc).2.1
    have he2 : (((x : ℤ), y + 1), ((x : ℤ), y + 2)) ∉ edgeSet w h g := by
      intro hc
      exact hmA (mem_edgeSet.mp hc).1
    rw [Finset.card_insert_of_not_mem he1, Finset.card_insert_of_not_mem he2, hcells]
    have := inv.tree
    omega

theorem edgeSet_carve_up {w h : ℤ} {g : ℤ × ℤ → ℕ} {x y : ℤ} {rest : List (ℤ × ℤ)}
    (inv : CarveInv w h g ((x, y) :: rest))
    (hwall : g (x, y - 2) = 1) (hmw : g (x, y - 1) = 1)
    (hmdom : ((x : ℤ), y - 1) ∈ dom w h) (hbdom : ((x : ℤ), y - 2) ∈ dom w h) :
    edgeSet w h (setCell (setCell g (x, y - 1) 0) (x, y - 2) 0)
      = insert ((x, y - 2), (x, y - 1))
          (insert ((x, y - 1), (x, y)) (edgeSet w h g)) := by
  have hstack := inv.stack_open (x, y) (List.mem_cons_self _ _)
  have ha : (x, y) ∈ openCells w h g := hstack.1
  have hxodd : x % 2 = 1 := hstack.2.1
  have hyodd : y % 2 = 1 := hstack.2.2
  have hmA : ((x : ℤ), y - 1) ∉ openCells w h g := by
    rw [mem_openCells]
    rintro ⟨-, hne⟩
    exact hne hmw
  have hbA : ((x : ℤ), y - 2) ∉ openCells w h g := by
    rw [mem_openCells]
    rintro ⟨-, hne⟩
    exact hne hwall
  have hA' : openCells w h (setCell (setCell g (x, y - 1) 0) (x, y - 2) 0)
      = insert ((x : ℤ), y - 2) (insert ((x : ℤ), y - 1) (openCells w h g)) := by
    rw [openCells_setZero hbdom, openCells_setZero hmdom]
  ext e
  obtain ⟨⟨u1, u2⟩, v1, v2⟩ := e
  rw [mem_edgeSet, Finset.mem_insert, Finset.mem_insert, mem_edgeSet, hA']
  dsimp only
  simp only [Finset.mem_insert, Prod.mk.injEq]
  constructor
  · rintro ⟨h1, h2, h3⟩
    rcases h1 with ⟨hu1, hu2⟩ | ⟨hu1, hu2⟩ | h1A
    · rcases h3 with ⟨hv1, hv2⟩ | ⟨hv1, hv2⟩
      · exfalso
        rcases h2 with ⟨a1, a2⟩ | ⟨a1, a2⟩ | h2A
        · omega
        · omega
        · refine inv.not_open_horiz (p := (v1, v2)) (by dsimp only; omega) ?_ h2A
          left
          show g (v1 - 1, v2) = 1
          rw [show v1 - 1 = x by omega, show v2 = y - 2 by omega]
          exact hwall
      · left
        exact ⟨⟨hu1, hu2⟩, by omega, by omega⟩
    · rcases h3 with ⟨hv1, hv2⟩ | ⟨hv1, hv2⟩
      · exfalso
        rcases h2 with ⟨a1, a2⟩ | ⟨a1, a2⟩ | h2A
        · omega
        · omega
        · exact inv.not_open_ee (p := (v1, v2)) (by dsimp only; omega)
            (by dsimp only; omega) h2A
      · right; left
        exact ⟨⟨hu1, hu2⟩, by omega, by omega⟩
    · rcases h3 with ⟨hv1, hv2⟩ | ⟨hv1, hv2⟩
      · rcases h2 with ⟨a1, a2⟩ | ⟨a1, a2⟩ | h2A
        · exfalso
          refine inv.not_open_horiz (p := (u1, u2)) (by dsimp only; omega) ?_ h1A
          right
          show g (u1 + 1, u2) = 1
          rw [show u1 + 1 = x by omega, show u2 = y - 2 by omega]
          exact hwall
        · exfalso
          exact inv.not_open_ee (p := (u1, u2)) (by dsimp only; omega)
            (by dsimp only; omega) h1A
        · right; right
          exact ⟨h1A, h2A, Or.inl ⟨hv1, hv2⟩⟩
      · rcases h2 with ⟨a1, a2⟩ | ⟨a1, a2⟩ | h2A
        · exfalso
          refine inv.not_open_vert (p := (u1, u2)) (by dsimp only; omega) ?_ h1A
          right
          show g (u1, u2 + 1) = 1
          rw [show u1 = x by omega, show u2 + 1 = y - 2 by omega]
          exact hwall
        · exfalso
          have hum : ((u1 : ℤ), u2) = ((x : ℤ), y - 2) := by
            rw [Prod.mk.injEq]
            omega
          rw [hum] at h1A
          exact hbA h1A
        · right; right
          exact ⟨h1A, h2A, Or.inr ⟨hv1, hv2⟩⟩
  · rintro (⟨⟨rfl, rfl⟩, rfl, rfl⟩ | ⟨⟨rfl, rfl⟩, rfl, rfl⟩ | ⟨h1, h2, h3⟩)
    · exact ⟨Or.inl ⟨rfl, rfl⟩, Or.inr (Or.inl ⟨rfl, by omega⟩), Or.inr ⟨rfl, by omega⟩⟩
    · exact ⟨Or.inr (Or.inl ⟨rfl, rfl⟩), Or.inr (Or.inr ha), Or.inr ⟨rfl, by omega⟩⟩
    · exact ⟨Or.inr (Or.inr h1), Or.inr (Or.inr h2), h3⟩

theorem carve_step_up {w h : ℤ} {g : ℤ × ℤ → ℕ} {x y : ℤ} {rest : List (ℤ × ℤ)}
    (inv : CarveInv w h g ((x, y) :: rest))
    (hb1 : 0 < x) (hb2 : x < w - 1) (hb3 : 0 < y - 2) (hb4 : y - 2 < h - 1)
    (hwall : g (x, y - 2) = 1) :
    CarveInv w h (setCell (setCell g (x, y - 1) 0) (x, y - 2) 0)
      ((x, y - 2) :: (x, y) :: rest) := by
  have hstack := inv.stack_open (x, y) (List.mem_cons_self _ _)
  have ha : (x, y) ∈ openCells w h g := hstack.1
  have hxodd : x % 2 = 1 := hstack.2.1
  have hyodd : y % 2 = 1 := hstack.2.2
  obtain ⟨hi1, hi2, hi3, hi4⟩ := inv.open_interior (x, y) ha
  dsimp only at hi1 hi2 hi3 hi4
  have hmdom : ((x : ℤ), y - 1) ∈ dom w h :=
    mem_dom.mpr ⟨by dsimp only; omega, by dsimp only; omega,
      by dsimp only; omega, by dsimp only; omega⟩
  have hbdom : ((x : ℤ), y - 2) ∈ dom w h :=
    mem_dom.mpr ⟨by dsimp only; omega, by dsimp only; omega,
      by dsimp only; omega, by dsimp only; omega⟩
  have hmw : g (x, y - 1) = 1 := by
    by_contra hmo
    have hmem : ((x : ℤ), y - 1) ∈ openCells w h g := mem_openCells.mpr ⟨hmdom, hmo⟩
    obtain ⟨hl, -⟩ := inv.mid_vert (x, y - 1) hmem (by dsimp only; omega)
    apply hl
    show g (x, y - 1 - 1) = 1
    rw [show (y : ℤ) - 1 - 1 = y - 2 by omega]
    exact hwall
  have hmA : ((x : ℤ), y - 1) ∉ openCells w h g := by
    rw [mem_openCells]
    rintro ⟨-, hne⟩
    exact hne hmw
  have hbA : ((x : ℤ), y - 2) ∉ openCells w h g := by
    rw [mem_openCells]
    rintro ⟨-, hne⟩
    exact hne hwall
  have hga : g (x, y) ≠ 1 := (mem_openCells.mp ha).2
  have hA' : openCells w h (setCell (setCell g (x, y - 1) 0) (x, y - 2) 0)
      = insert ((x : ℤ), y - 2) (insert ((x : ℤ), y - 1) (openCells w h g)) := by
    rw [openCells_setZero hbdom, openCells_setZero hmdom]
  have hE := edgeSet_carve_up inv hwall hmw hmdom hbdom
  have hsub : openCells w h g
      ⊆ openCells w h (setCell (setCell g (x, y - 1) 0) (x, y - 2) 0) :=
    openCells_subset_setZero.trans openCells_subset_setZero
  refine ⟨?_, ?_, ?_, ?_, ?_, ?_, ?_, ?_⟩
  · exact open_mono_setZero _ (open_mono_setZero _ inv.start_open)
  · intro p hp
    rw [hA', Finset.mem_insert, Finset.mem_insert] at hp
    rcases hp with rfl | rfl | hpA
    · exact ⟨by dsimp only; omega, by dsimp only; omega,
        by dsimp only; omega, by dsimp only; omega⟩
    · exact ⟨by dsimp only; omega, by dsimp only; omega,
        by dsimp only; omega, by dsimp only; omega⟩
    · exact inv.open_interior p hpA
  · intro p hp
    rw [hA', Finset.mem_insert, Finset.mem_insert] at hp
    rcases hp with rfl | rfl | hpA
    · left; dsimp only; omega
    · left; dsimp only; omega
    · exact inv.no_even_even p hpA
  · intro p hp hpar
    rw [hA', Finset.mem_insert, Finset.mem_insert] at hp
    rcases hp with rfl | rfl | hpA
    · exact absurd hpar (by dsimp only; omega)
    · exact absurd hpar (by dsimp only; omega)
    · obtain ⟨hl, hr⟩ := inv.mid_horiz p hpA hpar
      exact ⟨open_mono_setZero _ (open_mono_setZero _ hl),
        open_mono_setZero _ (open_mono_setZero _ hr)⟩
  · intro p hp hpar
    rw [hA', Finset.mem_insert, Finset.mem_insert] at hp
    rcases hp with rfl | rfl | hpA
    · exact absurd hpar (by dsimp only; omega)
    · dsimp only at hpar ⊢
      constructor
      · rw [show (y : ℤ) - 1 - 1 = y - 2 by omega]
        rw [setCell_same]
        omega
      · rw [show (y : ℤ) - 1 + 1 = y by omega]
        exact open_mono_setZero _ (open_mono_setZero _ hga)
    · obtain ⟨hl, hr⟩ := inv.mid_vert p hpA hpar
      exact ⟨open_mono_setZero _ (open_mono_setZero _ hl),
        open_mono_setZero _ (open_mono_setZero _ hr)⟩
  · intro p hp
    rcases List.mem_cons.mp hp with rfl | hp'
    · refine ⟨?_, by dsimp only; omega, by dsimp only; omega⟩
      rw [hA']
      exact Finset.mem_insert_self _ _
    · rcases List.mem_cons.mp hp' with rfl | hp''
      · refine ⟨hsub ha, by dsimp only; omega, by dsimp only; omega⟩
      · obtain ⟨hmem, hp1, hp2⟩ := inv.stack_open p (List.mem_cons_of_mem _ hp'')
        exact ⟨hsub hmem, hp1, hp2⟩
  · intro p hp
    have hreach_a : reach w h (setCell (setCell g (x, y - 1) 0) (x, y - 2) 0) (1, 1) (x, y) :=
      reach_mono hsub (inv.conn (x, y) ha)
    have hm_mem : ((x : ℤ), y - 1)
        ∈ openCells w h (setCell (setCell g (x, y - 1) 0) (x, y - 2) 0) := by
      rw [hA']
      exact Finset.mem_insert_of_mem (Finset.mem_insert_self _ _)
    have hb_mem : ((x : ℤ), y - 2)
        ∈ openCells w h (setCell (setCell g (x, y - 1) 0) (x, y - 2) 0) := by
      rw [hA']
      exact Finset.mem_insert_self _ _
    have hreach_m : reach w h (setCell (setCell g (x, y - 1) 0) (x, y - 2) 0) (1, 1) (x, y - 1) :=
      hreach_a.tail ⟨hm_mem, Or.inr (Or.inr (Or.inr rfl))⟩
    rw [hA', Finset.mem_insert, Finset.mem_insert] at hp
    rcases hp with rfl | rfl | hpA
    · refine hreach_m.tail ⟨hb_mem, Or.inr (Or.inr (Or.inr ?_))⟩
      rw [Prod.mk.injEq]
      exact ⟨rfl, by dsimp only; omega⟩
    · exact hreach_m
    · exact reach_mono hsub (inv.conn p hpA)
  · rw [hE, hA']
    have hcells : (insert ((x : ℤ), y - 2) (insert ((x : ℤ), y - 1) (openCells w h g))).card
        = (openCells w h g).card + 2 := by
      rw [Finset.card_insert_of_not_mem, Finset.card_insert_of_not_mem hmA]
      rw [Finset.mem_insert]
      rintro (hc | hc)
      · rw [Prod.mk.injEq] at hc
        omega
      · exact hbA hc
    have he1 : (((x : ℤ), y - 2), ((x : ℤ), y - 1))
        ∉ insert ((((x : ℤ), y - 1), ((x : ℤ), y))) (edgeSet w h g) := by
      rw [Finset.mem_insert]
      rintro (hc | hc)
      · rw [Prod.mk.injEq, Prod.mk.injEq, Prod.mk.injEq] at hc
        omega
      · exact hbA (mem_edgeSet.mp hc).1
    have he2 : (((x : ℤ), y - 1), ((x : ℤ), y)) ∉ edgeSet w h g := by
      intro hc
      exact hmA (mem_edgeSet.mp hc).1
    rw [Finset.card_insert_of_not_mem he1, Finset.card_insert_of_not_mem he2, hcells]
    have := inv.tree
    omega

theorem carve_step {w h : ℤ} {g : ℤ × ℤ → ℕ} {x y : ℤ} {rest : List (ℤ × ℤ)}
    (inv : CarveInv w h g ((x, y) :: rest)) {d : ℤ × ℤ}
    (hd : d ∈ neighborsList g w h x y) :
    CarveInv w h (setCell (setCell g (x + d.1 / 2, y + d.2 / 2) 0) (x + d.1, y + d.2) 0)
      ((x + d.1, y + d.2) :: (x, y) :: rest) := by
  obtain ⟨hdir, hg1, hg2, hg3, hg4, hwall⟩ := mem_neighborsList hd
  rcases directions_cases hdir with rfl | rfl | rfl | rfl
  · dsimp only at hg1 hg2 hg3 hg4 hwall ⊢
    rw [show (x + 0 / 2 : ℤ) = x by norm_num,
        show (y + -2 / 2 : ℤ) = y - 1 by rw [show (-2 : ℤ) / 2 = -1 by decide]; ring,
        show (x + 0 : ℤ) = x by ring,
        show (y + -2 : ℤ) = y - 2 by ring]
    rw [show (x + 0 : ℤ) = x by ring, show (y + -2 : ℤ) = y - 2 by ring] at hwall
    exact carve_step_up inv (by omega) (by omega) (by omega) (by omega) hwall
  · dsimp only at hg1 hg2 hg3 hg4 hwall ⊢
    rw [show (x + 2 / 2 : ℤ) = x + 1 by norm_num,
        show (y + 0 / 2 : ℤ) = y by norm_num,
        show (y + 0 : ℤ) = y by ring]
    rw [show (y + 0 : ℤ) = y by ring] at hwall
    exact carve_step_right inv (by omega) (by omega) (by omega) (by omega) hwall
  · dsimp only at hg1 hg2 hg3 hg4 hwall ⊢
    rw [show (x + 0 / 2 : ℤ) = x by norm_num,
        show (y + 2 / 2 : ℤ) = y + 1 by norm_num,
        show (x + 0 : ℤ) = x by ring]
    rw [show (x + 0 : ℤ) = x by ring] at hwall
    exact carve_step_down inv (by omega) (by omega) (by omega) (by omega) hwall
  · dsimp only at hg1 hg2 hg3 hg4 hwall ⊢
    rw [show (x + -2 / 2 : ℤ) = x - 1 by rw [show (-2 : ℤ) / 2 = -1 by decide]; ring,
        show (y + 0 / 2 : ℤ) = y by norm_num,
        show (x + -2 : ℤ) = x - 2 by ring,
        show (y + 0 : ℤ) = y by ring]
    rw [show (x + -2 : ℤ) = x - 2 by ring, show (y + 0 : ℤ) = y by ring] at hwall
    exact carve_step_left inv (by omega) (by omega) (by omega) (by omega) hwall

theorem carveLoop_inv {w h : ℤ} {f : ℕ → ℕ} :
    ∀ (fuel : ℕ) (st st' : CarveState), CarveInv w h st.grid st.stack →
      carveLoop f w h fuel st = some st' → CarveInv w h st'.grid st'.stack := by
  intro fuel
  induction fuel with
  | zero =>
    intro st st' _ hc
    exact absurd hc (by simp [carveLoop])
  | succ n ih =>
    intro st st' hinv hc
    rw [carveLoop] at hc
    cases hstack : st.stack with
    | nil =>
      rw [hstack] at hc
      injection hc with hc
      subst hc
      exact hinv
    | cons p rest =>
      rw [hstack] at hc hinv
      dsimp only at hc
      cases hns : neighborsList st.grid w h p.1 p.2 with
      | nil =>
        rw [hns] at hc
        dsimp only at hc
        refine ih _ _ ?_ hc
        exact ⟨hinv.start_open, hinv.open_interior, hinv.no_even_even,
          hinv.mid_horiz, hinv.mid_vert,
          fun q hq => hinv.stack_open q (List.mem_cons_of_mem _ hq),
          hinv.conn, hinv.tree⟩
      | cons nh nt =>
        rw [hns] at hc
        dsimp only at hc
        refine ih _ _ ?_ hc
        have hinv' : CarveInv w h st.grid ((p.1, p.2) :: rest) := hinv
        have hmem : (nh :: nt).get
            ⟨f st.k % (nh :: nt).length, Nat.mod_lt _ (Nat.succ_pos _)⟩
            ∈ neighborsList st.grid w h p.1 p.2 := by
          rw [hns]
          exact List.get_mem _ _ _
        exact carve_step hinv' hmem

theorem carveInv_init {w h : ℤ} (hw : 3 ≤ w) (hh : 3 ≤ h) :
    CarveInv w h (setCell (fun _ => 1) (1, 1) 0) [(1, 1)] := by
  have hdom : ((1 : ℤ), (1 : ℤ)) ∈ dom w h :=
    mem_dom.mpr ⟨by norm_num, by dsimp only; omega, by norm_num, by dsimp only; omega⟩
  have hA : openCells w h (setCell (fun _ => 1) (1, 1) 0) = {((1 : ℤ), (1 : ℤ))} := by
    rw [openCells_setZero hdom]
    have hempty : openCells w h (fun _ => 1) = ∅ := by
      rw [Finset.eq_empty_iff_forall_not_mem]
      intro p hp
      exact (mem_openCells.mp hp).2 rfl
    rw [hempty]
    rfl
  have hE : edgeSet w h (setCell (fun _ => 1) (1, 1) 0) = ∅ := by
    rw [Finset.eq_empty_iff_forall_not_mem]
    intro e he
    obtain ⟨⟨u1, u2⟩, v1, v2⟩ := e
    rw [mem_edgeSet, hA] at he
    obtain ⟨he1, he2, he3⟩ := he
    rw [Finset.mem_singleton, Prod.mk.injEq] at he1 he2
    dsimp only at he3
    rcases he3 with he3 | he3 <;>
      · rw [Prod.mk.injEq] at he3
        omega
  refine ⟨?_, ?_, ?_, ?_, ?_, ?_, ?_, ?_⟩
  · rw [setCell_same]
    omega
  · intro p hp
    rw [hA, Finset.mem_singleton] at hp
    subst hp
    exact ⟨by norm_num, by dsimp only; omega, by norm_num, by dsimp only; omega⟩
  · intro p hp
    rw [hA, Finset.mem_singleton] at hp
    subst hp
    left
    decide
  · intro p hp hpar
    rw [hA, Finset.mem_singleton] at hp
    subst hp
    exact absurd hpar (by decide)
  · intro p hp hpar
    rw [hA, Finset.mem_singleton] at hp
    subst hp
    exact absurd hpar (by decide)
  · intro p hp
    rw [List.mem_singleton] at hp
    subst hp
    refine ⟨?_, by decide, by decide⟩
    rw [hA]
    exact Finset.mem_singleton_self _
  · intro p hp
    rw [hA, Finset.mem_singleton] at hp
    subst hp
    exact Relation.ReflTransGen.refl
  · rw [hA, hE]
    rfl

theorem exitSearch_spec {f : ℕ → ℕ} {w h : ℤ} {g : ℤ × ℤ → ℕ} (hh : 3 ≤ h) :
    ∀ (fuel k : ℕ) (ey : ℤ) (k' : ℕ), exitSearch f w h g fuel k = some (ey, k') →
      g (w - 2, ey) ≠ 1 ∧ 1 ≤ ey ∧ ey ≤ h - 2 := by
  intro fuel
  induction fuel with
  | zero =>
    intro k ey k' hc
    exact absurd hc (by simp [exitSearch])
  | succ n ih =>
    intro k ey k' hc
    have hmz : ¬((h - 2).toNat = 0) := by omega
    rw [exitSearch] at hc
    rw [if_neg hmz] at hc
    split at hc
    · exact ih _ _ _ hc
    · next hg =>
      injection hc with hc
      rw [Prod.mk.injEq] at hc
      obtain ⟨hey, -⟩ := hc
      subst hey
      have hlt : f k % (h - 2).toNat < (h - 2).toNat :=
        Nat.mod_lt _ (Nat.pos_of_ne_zero hmz)
      have hcast : (((h - 2).toNat : ℕ) : ℤ) = h - 2 := Int.toNat_of_nonneg (by omega)
      refine ⟨hg, by omega, by omega⟩

/-- C1.  Every maze returned by `generateMaze` with odd dimensions at
least 5×5 is a perfect maze: the non-Wall cells form a single connected
region containing the start `(1,1)` (every open cell is reachable from the
start through carved cells), the Exit cell belongs to that region, and the
region is acyclic — the number of carved edges is exactly the number of
open cells minus one. -/
theorem c1_generateMaze_perfect (w h : ℤ) (f : ℕ → ℕ) (cf ef : ℕ) (res : MazeResult)
    (hw : Odd w) (hw5 : 5 ≤ w) (hh : Odd h) (hh5 : 5 ≤ h)
    (hres : generateMaze f w h cf ef = some res) :
    res.player = (1, 1) ∧
    (1, 1) ∈ openCells w h res.grid ∧
    res.exit ∈ openCells w h res.grid ∧
    reach w h res.grid (1, 1) res.exit ∧
    (∀ c ∈ openCells w h res.grid, reach w h res.grid (1, 1) c) ∧
    (edgeSet w h res.grid).card + 1 = (openCells w h res.grid).card := by
  simp only [generateMaze] at hres
  cases hc : carveLoop f w h cf ⟨setCell (fun _ => 1) (1, 1) 0, [(1, 1)], 0⟩ with
  | none => rw [hc] at hres; simp at hres
  | some st =>
    rw [hc, Option.some_bind] at hres
    cases he : exitSearch f w h st.grid ef st.k with
    | none => rw [he] at hres; simp at hres
    | some eyk =>
      obtain ⟨ey, k'⟩ := eyk
      rw [he, Option.some_bind] at hres
      injection hres with hres
      subst hres
      have hinv : CarveInv w h st.grid st.stack :=
        carveLoop_inv cf _ st (carveInv_init (by omega) (by omega)) hc
      obtain ⟨hexit_open, hey1, hey2⟩ := exitSearch_spec (by omega) ef st.k ey k' he
      have h11 : ((1 : ℤ), (1 : ℤ)) ≠ ((w - 2 : ℤ), ey) := by
        rw [Ne, Prod.mk.injEq]
        rintro ⟨hx, -⟩
        omega
      have hmid : setCell st.grid (w - 2, ey) 2 (1, 1) ≠ 1 := by
        rw [setCell_ne _ _ _ h11]
        exact hinv.start_open
      have hopen_eq :
          openCells w h (setCell (setCell st.grid (w - 2, ey) 2) (1, 1) 0)
            = openCells w h st.grid := by
        rw [openCells_setZero_open hmid, openCells_setTwo hexit_open]
      have hstart_mem : ((1 : ℤ), (1 : ℤ)) ∈ openCells w h st.grid :=
        mem_openCells.mpr
          ⟨mem_dom.mpr ⟨by norm_num, by dsimp only; omega, by norm_num, by dsimp only; omega⟩,
           hinv.start_open⟩
      have hexit_mem : ((w - 2 : ℤ), ey) ∈ openCells w h st.grid :=
        mem_openCells.mpr
          ⟨mem_dom.mpr ⟨by dsimp only; omega, by dsimp only; omega,
             by dsimp only; omega, by dsimp only; omega⟩,
           hexit_open⟩
      have hconn : ∀ c ∈ openCells w h
          (setCell (setCell st.grid (w - 2, ey) 2) (1, 1) 0),
          reach w h (setCell (setCell st.grid (w - 2, ey) 2) (1, 1) 0) (1, 1) c := by
        intro c hcm
        rw [hopen_eq] at hcm
        exact reach_congr hopen_eq.symm (hinv.conn c hcm)
      refine ⟨rfl, ?_, ?_, ?_, hconn, ?_⟩
      · rw [show (MazeResult.mk (setCell (setCell st.grid (w - 2, ey) 2) (1, 1) 0)
            (w - 2, ey) (1, 1) [(1, 1)]).grid
            = setCell (setCell st.grid (w - 2, ey) 2) (1, 1) 0 from rfl, hopen_eq]
        exact hstart_mem
      · rw [show (MazeResult.mk (setCell (setCell st.grid (w - 2, ey) 2) (1, 1) 0)
            (w - 2, ey) (1, 1) [(1, 1)]).grid
            = setCell (setCell st.grid (w - 2, ey) 2) (1, 1) 0 from rfl, hopen_eq]
        exact hexit_mem
      · exact hconn _ (by rw [hopen_eq]; exact hexit_mem)
      · rw [show (MazeResult.mk (setCell (setCell st.grid (w - 2, ey) 2) (1, 1) 0)
            (w - 2, ey) (1, 1) [(1, 1)]).grid
            = setCell (setCell st.grid (w - 2, ey) 2) (1, 1) 0 from rfl]
        rw [edgeSet_congr hopen_eq, hopen_eq]
        exact hinv.tree

/-- C1 witness: the concrete generated 5×5 demo maze. -/
theorem c1_generateMaze_perfect_witness :
    demoRes.player = (1, 1) ∧
    (1, 1) ∈ openCells 5 5 demoRes.grid ∧
    demoRes.exit ∈ openCells 5 5 demoRes.grid ∧
    reach 5 5 demoRes.grid (1, 1) demoRes.exit ∧
    (∀ c ∈ openCells 5 5 demoRes.grid, reach 5 5 demoRes.grid (1, 1) c) ∧
    (edgeSet 5 5 demoRes.grid).card + 1 = (openCells 5 5 demoRes.grid).card :=
  c1_generateMaze_perfect 5 5 (fun _ => 0) 50 5 demoRes
    ⟨2, by decide⟩ (by decide) ⟨2, by decide⟩ (by decide) rfl
